import Mathlib

/-!
Shallow embedding of the RES construction pipeline of `reslac.py`
(module `reslac`, class `EnergyMatrix` and the `Technology`/`Fuel`
class family), together with proofs about the claims on its spec.

Modelling conventions:
* Python `float` energies are modelled as `Rat`.
* Python class objects (`type(self)`) are modelled by the `PyType` tag.
* A region value is either a 3-letter code string or the Python `False`
  sentinel returned by `set_region`; this is the inductive `RegV`.
* Python's set-based `__eq__` (`{type, category, code, region} ==
  {type, category, code, region}`) is modelled as extensional equality
  of the corresponding 4-element key lists (`keySetEq`).
* In-place mutation of a technology's fuels is modelled by returning an
  updated value; `list.remove` / `list.index` failures become
  `Except`/`Option` errors carrying the data Python would put in the
  exception message (the `__repr__` fields).
* Python `list(set(...))` has unspecified iteration order; it is
  modelled with `List.dedup`.  All theorem conclusions below are
  invariant under the particular order chosen.
-/

/-- Tag for the concrete Python class of an object (`type(x)`). -/
inductive PyType where
  | primTech | supplyTech | convTech | demandTech
  | primFuel | secFuel | thirdFuel | supplyFuel
deriving DecidableEq

/-- A region value: either a resolved 3-letter code or the Python
`False` sentinel that `set_region` returns for unknown countries. -/
inductive RegV where
  | code (s : String)
  | unre
deriving DecidableEq

/-- An element of one of the Python identity sets: a class object, a
plain string, or the `False` sentinel. -/
inductive Key where
  | ty (t : PyType)
  | str (s : String)
  | fls
deriving DecidableEq

/-- How a region value appears as a member of a Python set. -/
def RegV.key : RegV → Key
  | .code s => .str s
  | .unre => .fls

/-- `Fuel` of `reslac.py` (attributes `code`, `energy_PJ`, `region`;
the subclass is the `ftype` tag). -/
structure Fuel where
  ftype : PyType
  code : String
  region : RegV
  energy_PJ : Rat
deriving DecidableEq

/-- `Technology` of `reslac.py` (attributes `code`, `region`,
`category`; the subclass is the `ttype` tag).  The two fuel lists exist
only on some subclasses in Python; a missing list is the empty list. -/
structure Technology where
  ttype : PyType
  category : String
  code : String
  region : RegV
  in_fuels : List Fuel
  out_fuels : List Fuel
deriving DecidableEq

/-- The 3-element set `{type(self), self.code, self.region}` built by
`Fuel.__eq__`, as a list of its members. -/
def fuelKey (f : Fuel) : List Key :=
  [.ty f.ftype, .str f.code, f.region.key]

/-- The 4-element set `{type(self), self.category, self.code,
self.region}` built by `Technology.__eq__`, as a list of its members. -/
def techKey (T : Technology) : List Key :=
  [.ty T.ttype, .str T.category, .str T.code, T.region.key]

/-- Membership of a key in a key list. -/
def memK (k : Key) (ys : List Key) : Bool :=
  ys.any (fun y => decide (y = k))

/-- Python set equality of the two key collections: they have the same
members. -/
def keySetEq (xs ys : List Key) : Bool :=
  xs.all (fun k => memK k ys) && ys.all (fun k => memK k xs)

/-- `Fuel.__eq__` of `reslac.py`: set equality of
`{type, code, region}`. -/
def fuelEq (f g : Fuel) : Bool :=
  keySetEq (fuelKey f) (fuelKey g)

/-- `Technology.__eq__` of `reslac.py`: set equality of
`{type, category, code, region}`. -/
def techEq (S T : Technology) : Bool :=
  keySetEq (techKey S) (techKey T)

/-- Membership of a string in a string list. -/
def memS (s : String) (ys : List String) : Bool :=
  ys.any (fun y => decide (y = s))

/-- Python set equality for string sets (used on
`tech_set = {self.code, other.code}` in `Technology.__add__`). -/
def strSetEq (xs ys : List String) : Bool :=
  xs.all (fun s => memS s ys) && ys.all (fun s => memS s xs)

/-- Result of `Technology.__add__`: Python returns `None`, returns the
mutated `self`, or raises `ValueError` from `list.index`. -/
inductive AddRes where
  | retNone
  | ok (t : Technology)
  | valueError
deriving DecidableEq

/-- The loop `for f in self...: f.energy_PJ +=
other...[other....index(f)].energy_PJ` of `Technology.__add__`: each of
`self`'s fuels receives the energy of the first matching fuel of
`other`; `none` models the `ValueError` raised when a fuel of `self`
has no match in `other`. -/
def sumFuelsInto : List Fuel → List Fuel → Option (List Fuel)
  | [], _ => some []
  | f :: fs, gs =>
    match gs.find? (fun g => fuelEq f g) with
    | none => none
    | some g =>
      match sumFuelsInto fs gs with
      | none => none
      | some rest => some ({ f with energy_PJ := f.energy_PJ + g.energy_PJ } :: rest)

/-- `Technology.__add__` of `reslac.py`. -/
def techAdd (s o : Technology) : AddRes :=
  if s.ttype = o.ttype then
    if strSetEq [s.code, o.code] ["INV", "WAS"] then
      match sumFuelsInto s.out_fuels o.out_fuels with
      | some fs => .ok { s with out_fuels := fs }
      | none => .valueError
    else if strSetEq [s.code, o.code] ["OWN", "LOS"] then
      match sumFuelsInto s.in_fuels o.in_fuels with
      | some fs => .ok { s with in_fuels := fs }
      | none => .valueError
    else .retNone
  else .retNone

deriving instance DecidableEq for Except

/-- The Python exceptions the pipeline can raise, with the identifying
data the exception message would carry (`repr` of the object for
`ValueError: x is not in list`). -/
inductive PyErr where
  | indexError
  | valueErrorTech (category code : String) (region : RegV)
  | valueErrorFuel (code : String) (region : RegV)
  | valueErrorLoss
  | unboundLocal
deriving DecidableEq

/-- Predicate `T.code == c and T.region == r` used by the loss-reducer
filters. -/
def isCodeReg (c : String) (r : RegV) (T : Technology) : Bool :=
  decide (T.code = c ∧ T.region = r)

/-- Replace the first element satisfying `p` (models the in-place
mutation of the technology object found by the filter). -/
def replaceFirst (p : Technology → Bool) (y : Technology) : List Technology → List Technology
  | [] => []
  | x :: xs => if p x then y :: xs else x :: replaceFirst p y xs

/-- `list.remove(t)`: delete the first element equal (by
`Technology.__eq__`) to `t`; `ValueError` if none. -/
def removeFirstEq (t : Technology) : List Technology → Except PyErr (List Technology)
  | [] => .error .valueErrorLoss
  | x :: xs =>
    if techEq x t then .ok xs
    else
      match removeFirstEq t xs with
      | .error e => .error e
      | .ok rest => .ok (x :: rest)

/-- One region's step of `sum_prim_loss_tech` / `sum_sec_loss_tech`:
pick the first technology with code `cSelf` and the first with code
`cOther` in region `r` (IndexError if either filter is empty), run
`self + other` (which mutates `self` in place), then
`self._techs.remove(other)`.  The `Technology.__add__` result is
discarded (`_ = ... + ...`), so a `None` result still removes. -/
def loss_pass (cSelf cOther : String) (acc : List Technology) (r : RegV) :
    Except PyErr (List Technology) :=
  match acc.find? (isCodeReg cSelf r) with
  | none => .error .indexError
  | some selfT =>
    match acc.find? (isCodeReg cOther r) with
    | none => .error .indexError
    | some otherT =>
      match techAdd selfT otherT with
      | .valueError => .error .valueErrorLoss
      | .retNone => removeFirstEq otherT acc
      | .ok selfT2 => removeFirstEq otherT (replaceFirst (isCodeReg cSelf r) selfT2 acc)

/-- `list({T.region for T in techs})`; Python's set order is
unspecified, `dedup` fixes one.  The theorems below do not depend on
the order. -/
def regionsOf (techs : List Technology) : List RegV :=
  (techs.map (fun T => T.region)).dedup

/-- The `for r in regions` loop; in `build_RES` the list searched and
the list mutated (`self._techs`) are the same object, so each step
operates on the current list. -/
def runRegions (step : List Technology → RegV → Except PyErr (List Technology)) :
    List Technology → List RegV → Except PyErr (List Technology)
  | acc, [] => .ok acc
  | acc, r :: rs =>
    match step acc r with
    | .error e => .error e
    | .ok acc2 => runRegions step acc2 rs

/-- `EnergyMatrix.sum_prim_loss_tech`: for each region, `WAS + INV`
(WAS absorbs INV's output-fuel energies) then remove the INV
technology. -/
def sum_prim_loss_tech (techs : List Technology) : Except PyErr (List Technology) :=
  runRegions (loss_pass "WAS" "INV") techs (regionsOf techs)

/-- `EnergyMatrix.sum_sec_loss_tech`: for each region, `OWN + LOS`
(OWN absorbs LOS's input-fuel energies) then remove the LOS
technology. -/
def sum_sec_loss_tech (techs : List Technology) : Except PyErr (List Technology) :=
  runRegions (loss_pass "OWN" "LOS") techs (regionsOf techs)

/-- The loss-reducer tail of `EnergyMatrix.build_RES`:
`sum_prim_loss_tech` then `sum_sec_loss_tech` on the same list. -/
def reduce_RES (techs : List Technology) : Except PyErr (List Technology) :=
  match sum_prim_loss_tech techs with
  | .error e => .error e
  | .ok l => sum_sec_loss_tech l

/-- The per-fuel-list copy loop of `fill_RES`:
`f.energy_PJ = t_fuels[t_fuels.index(f)].energy_PJ` for each skeleton
fuel `f`; a missing counterpart raises `ValueError` whose message holds
`repr(f) = (code, region)`. -/
def copyEnergies : List Fuel → List Fuel → Except PyErr (List Fuel)
  | [], _ => .ok []
  | f :: fs, gs =>
    match gs.find? (fun g => fuelEq f g) with
    | none => .error (.valueErrorFuel f.code f.region)
    | some g =>
      match copyEnergies fs gs with
      | .error e => .error e
      | .ok rest => .ok ({ f with energy_PJ := g.energy_PJ } :: rest)

/-- The category dispatch of `fill_RES` for one matched pair: copy the
output list for `SUP`/`LOS001`, both lists for `UPS001/2/3`, the input
list for `DEM`/`LOS002`; other categories are untouched. -/
def mergeTech (T t : Technology) : Except PyErr Technology :=
  if T.category = "SUP" ∨ T.category = "LOS001" then
    match copyEnergies T.out_fuels t.out_fuels with
    | .error e => .error e
    | .ok fs => .ok { T with out_fuels := fs }
  else if T.category = "UPS001" ∨ T.category = "UPS002" ∨ T.category = "UPS003" then
    match copyEnergies T.in_fuels t.in_fuels with
    | .error e => .error e
    | .ok ifs =>
      match copyEnergies T.out_fuels t.out_fuels with
      | .error e => .error e
      | .ok ofs => .ok { T with in_fuels := ifs, out_fuels := ofs }
  else if T.category = "DEM" ∨ T.category = "LOS002" then
    match copyEnergies T.in_fuels t.in_fuels with
    | .error e => .error e
    | .ok fs => .ok { T with in_fuels := fs }
  else .ok T

/-- The merge loop of `EnergyMatrix.fill_RES`: for each skeleton
technology `T`, `t = techs[techs.index(T)]` (a missing counterpart
raises `ValueError` whose message holds `repr(T) = (category, code,
region)`), then copy the fuel energies per category. -/
def fill_RES_merge : List Technology → List Technology → Except PyErr (List Technology)
  | [], _ => .ok []
  | T :: Ts, techs =>
    match techs.find? (fun t => techEq T t) with
    | none => .error (.valueErrorTech T.category T.code T.region)
    | some t =>
      match mergeTech T t with
      | .error e => .error e
      | .ok T2 =>
        match fill_RES_merge Ts techs with
        | .error e => .error e
        | .ok rest => .ok (T2 :: rest)

/-- `EnergyMatrix.split_flow`: for every `UPS002` technology, zero the
positive input-fuel energies and the negative output-fuel energies. -/
def split_flow (techs : List Technology) : List Technology :=
  techs.map (fun T =>
    if T.category = "UPS002" then
      { T with
        in_fuels := T.in_fuels.map (fun f =>
          if f.energy_PJ > 0 then { f with energy_PJ := 0 } else f),
        out_fuels := T.out_fuels.map (fun f =>
          if f.energy_PJ < 0 then { f with energy_PJ := 0 } else f) }
    else T)

/-- Lookup of a name among the keys of one Python label dictionary. -/
def lookupTable : List (String × String) → String → Option String
  | [], _ => none
  | (k, v) :: rest, name => if name = k then some v else lookupTable rest name

/-- `for c in categories: if name in c: return (c["Category"], c[name])`;
the first component of each pair is the table's category/tier constant,
its entry list includes the `"Category"`/`"Sector"` key itself, exactly
as the Python dictionaries do. -/
def lookupCat : List (String × List (String × String)) → String → Option (String × String)
  | [], _ => none
  | (cat, tbl) :: rest, name =>
    match lookupTable tbl name with
    | some v => some (cat, v)
    | none => lookupCat rest name

/-- The region dictionary of `set_region`. -/
def regionTable : List (String × String) :=
  [("Argentina", "ARG"), ("Barbados", "BRB"), ("Belice", "BLZ"),
   ("Bolivia", "BOL"), ("Brasil", "BRA"), ("Chile", "CHL"),
   ("Colombia", "COL"), ("Costa Rica", "CRI"), ("Cuba", "CUB"),
   ("Ecuador", "ECU"), ("El Salvador", "SLV"), ("Grenada", "GRD"),
   ("Guatemala", "GTM"), ("Guyana", "GUY"), ("Haiti", "HTI"),
   ("Honduras", "HND"), ("Jamaica", "JAM"), ("México", "MEX"),
   ("Nicaragua", "NIC"), ("Panamá", "PAN"), ("Paraguay", "PRY"),
   ("Perú", "PER"), ("República Dominicana", "DOM"), ("Suriname", "SUR"),
   ("Trinidad & Tobago", "TTO"), ("Uruguay", "URY"), ("Venezuela", "VEN")]

/-- `set_region` of `reslac.py`: the 3-letter code, or the `False`
sentinel when the country is not in the table. -/
def set_region (country : String) : RegV :=
  match lookupTable regionTable country with
  | some c => .code c
  | none => .unre

/-- The three fuel dictionaries of `set_fuel_labels`, with their
`"Sector"` tier constants. -/
def fuelTables : List (String × List (String × String)) :=
  [("FUE001",
    [("Sector", "FUE001"), ("PETRÓLEO", "CRU"), ("GAS NATURAL", "NGS"),
     ("CARBÓN MINERAL", "COA001"), ("HIDROENERGÍA", "HYD"),
     ("GEOTERMIA", "GEO"), ("NUCLEAR", "NUC"), ("LEÑA", "WOO"),
     ("CAÑA DE AZÚCAR Y DERIVADOS", "SGC"), ("OTRAS PRIMARIAS", "OPR")]),
   ("FUE002",
    [("Sector", "FUE002"), ("GAS LICUADO DE PETRÓLEO", "LPG"),
     ("GASOLINA/ALCOHOL", "GSL"), ("KEROSENE/JET FUEL", "KER"),
     ("DIÉSEL OIL", "DSL"), ("FUEL OIL", "HFO"), ("COQUE", "COK"),
     ("CARBÓN VEGETAL", "COA002"), ("GASES", "GAS"),
     ("OTRAS SECUNDARIAS", "OSE"), ("NO ENERGÉTICO", "NEN")]),
   ("FUE003",
    [("Sector", "FUE003"), ("ELECTRICIDAD", "ELC")])]

/-- `set_fuel_labels` of `reslac.py`: `(tier, commodity-code)` or not
recognized. -/
def set_fuel_labels (name : String) : Option (String × String) :=
  lookupCat fuelTables name

/-- The seven technology dictionaries of `set_technology_labels`, with
their `"Category"` constants. -/
def techTables : List (String × List (String × String)) :=
  [("SUP",
    [("Category", "SUP"), ("PRODUCCIÓN", "PRO"), ("IMPORTACIÓN", "IMP"),
     ("EXPORTACIÓN", "EXP")]),
   ("UPS001",
    [("Category", "UPS001"), ("REFINERÍAS", "REF"), ("CENTROS DE GAS", "GAS"),
     ("CARBONERA", "CHL"), ("DESTILERÍA", "DET")]),
   ("UPS002",
    [("Category", "UPS002"), ("COQUERÍA Y ALTOS HORNOS", "BOI"),
     ("OTROS CENTROS", "UPSTEC")]),
   ("UPS003",
    [("Category", "UPS003"), ("CENTRALES ELÉCTRICAS", "PWR"),
     ("AUTOPRODUCTORES", "SEL")]),
   ("DEM",
    [("Category", "DEM"), ("TRANSPORTE", "TRA"), ("INDUSTRIAL", "IND"),
     ("RESIDENCIAL", "RES"), ("COMERCIAL, SERVICIOS, PÚBLICO", "COM"),
     ("AGRO, PESCA Y MINERÍA", "AGR"), ("CONSTRUCCIÓN Y OTROS", "CON"),
     ("CONSUMO NO ENERGÉTICO", "NEE")]),
   ("LOS001",
    [("Category", "LOS001"), ("VARIACIÓN DE INVENTARIOS", "INV"),
     ("NO APROVECHADO", "WAS")]),
   ("LOS002",
    [("Category", "LOS002"), ("PÉRDIDAS", "LOS"), ("CONSUMO PROPIO", "OWN")])]

/-- `set_technology_labels` of `reslac.py`: `(category, tech-code)` or
not recognized. -/
def set_technology_labels (name : String) : Option (String × String) :=
  lookupCat techTables name

/-- Python `s.split(" - ")` on the character list (left-to-right,
non-overlapping separator occurrences). -/
def splitDash : List Char → List (List Char)
  | [] => [[]]
  | ' ' :: '-' :: ' ' :: rest => [] :: splitDash rest
  | c :: rest =>
    match splitDash rest with
    | [] => [[c]]
    | p :: ps => (c :: p) :: ps

/-- One sheet of the workbook after the normalisation done by
`read_data`/`read_base`: the sheet key, the `"Sectors"` column (row
labels), and the remaining columns, each a header with its cell values
aligned with the row labels.  `matrix_df[field][n]` is modelled as
`getD n 0`: pandas keeps all columns the same length and missing cells
were already filled with `0.0`. -/
structure Sheet where
  key : String
  sectors : List String
  fields : List (String × List Rat)
deriving DecidableEq

/-- `region = country.split(" - ")[1]; region = set_region(region)`:
IndexError when the key has no `" - "` separator. -/
def sheetRegion (sh : Sheet) : Except PyErr RegV :=
  match (splitDash sh.key.toList)[1]? with
  | none => .error .indexError
  | some cs => .ok (set_region (String.mk cs))

/-- One label tuple `(category, tech_code, sector, fuel_code, region)`
appended by `obj_labels`. -/
structure Label where
  cat : String
  tcode : String
  sector : String
  fcode : String
  region : RegV
deriving DecidableEq

/-- The inner column loop of `obj_labels` for one recognized row:
a label per recognized fuel column whose cell is non-zero (Python
truthiness of the float). -/
def rowLabels (r : RegV) (cat tcode : String) (n : Nat)
    (fields : List (String × List Rat)) : List Label :=
  fields.filterMap (fun fv =>
    match set_fuel_labels fv.1 with
    | none => none
    | some (sector, fcode) =>
      if (fv.2.getD n 0 : Rat) ≠ 0 then some ⟨cat, tcode, sector, fcode, r⟩ else none)

/-- The row loop of `obj_labels` for one sheet with resolved region
value `r` (which may be the `False` sentinel — the source never checks). -/
def sheetBody (r : RegV) (sh : Sheet) : List Label :=
  sh.sectors.enum.flatMap (fun p =>
    match set_technology_labels p.2 with
    | none => []
    | some (cat, tcode) => rowLabels r cat tcode p.1 sh.fields)

/-- `EnergyMatrix.obj_labels` over the capacity workbook's sheets. -/
def obj_labels : List Sheet → Except PyErr (List Label)
  | [] => .ok []
  | sh :: rest =>
    match sheetRegion sh with
    | .error e => .error e
    | .ok r =>
      match obj_labels rest with
      | .error e => .error e
      | .ok more => .ok (sheetBody r sh ++ more)

/-- `EnergyMatrix.add_ifuel`: a zero-energy fuel of the tier's class;
an unknown sector leaves the local unbound (modelled as an error). -/
def add_ifuel (sector fcode : String) (r : RegV) : Except PyErr Fuel :=
  if sector = "FUE001" then .ok ⟨.primFuel, fcode, r, 0⟩
  else if sector = "FUE002" then .ok ⟨.secFuel, fcode, r, 0⟩
  else if sector = "FUE003" then .ok ⟨.thirdFuel, fcode, r, 0⟩
  else .error .unboundLocal

/-- `EnergyMatrix.add_itech`: an empty technology of the category's
class; an unknown category leaves the local unbound. -/
def add_itech (cat tcode : String) (r : RegV) : Except PyErr Technology :=
  if cat = "SUP" ∨ cat = "LOS001" then .ok ⟨.primTech, cat, tcode, r, [], []⟩
  else if cat = "UPS001" ∨ cat = "UPS002" ∨ cat = "UPS003" then
    .ok ⟨.convTech, cat, tcode, r, [], []⟩
  else if cat = "DEM" ∨ cat = "LOS002" then .ok ⟨.demandTech, cat, tcode, r, [], []⟩
  else .error .unboundLocal

/-- The set `{ft[1], ft[2], ft[-1]}` built from one label tuple by the
`*_tech_flow` filters (tech code, sector and region mix in one Python
set). -/
def lblKeys (l : Label) : List Key :=
  [.str l.tcode, .str l.sector, l.region.key]

/-- Python `xs.issubset(ys)` on key sets. -/
def subsetK (xs ys : List Key) : Bool :=
  xs.all (fun k => memK k ys)

/-- Build the zero-energy fuels for the label tuples passing a filter. -/
def addIFuels : List Label → Except PyErr (List Fuel)
  | [] => .ok []
  | l :: ls =>
    match add_ifuel l.sector l.fcode l.region with
    | .error e => .error e
    | .ok f =>
      match addIFuels ls with
      | .error e => .error e
      | .ok rest => .ok (f :: rest)

/-- `list({ft for ft in obj_labels if {ft[1], ft[2],
ft[-1]}.issubset(filter)})` followed by `add_ifuel` per tuple. -/
def fuelsFor (flt : List Key) (labels : List Label) : Except PyErr (List Fuel) :=
  addIFuels ((labels.filter (fun l => subsetK (lblKeys l) flt)).dedup)

/-- `prim_tech_flow` / `conv_tech_flow` / `dem_tech_flow` of
`reslac.py`: attach the zero-energy fuel slots selected by the
category's filter sets. -/
def techFlow (T : Technology) (labels : List Label) : Except PyErr Technology :=
  if T.category = "SUP" ∨ T.category = "LOS001" then
    match fuelsFor [.str T.code, T.region.key, .str "FUE001", .str "FUE002",
        .str "FUE003"] labels with
    | .error e => .error e
    | .ok fs => .ok { T with out_fuels := fs }
  else if T.category = "UPS001" then
    match fuelsFor [.str T.code, .str "FUE001", T.region.key] labels with
    | .error e => .error e
    | .ok ins =>
      match fuelsFor [.str T.code, .str "FUE002", T.region.key] labels with
      | .error e => .error e
      | .ok outs => .ok { T with in_fuels := ins, out_fuels := outs }
  else if T.category = "UPS002" then
    match fuelsFor [.str T.code, .str "FUE001", .str "FUE002", T.region.key] labels with
    | .error e => .error e
    | .ok ins =>
      match fuelsFor [.str T.code, .str "FUE002", T.region.key] labels with
      | .error e => .error e
      | .ok outs => .ok { T with in_fuels := ins, out_fuels := outs }
  else if T.category = "UPS003" then
    match fuelsFor [.str T.code, .str "FUE001", .str "FUE002", T.region.key] labels with
    | .error e => .error e
    | .ok ins =>
      match fuelsFor [.str T.code, .str "FUE003", T.region.key] labels with
      | .error e => .error e
      | .ok outs => .ok { T with in_fuels := ins, out_fuels := outs }
  else if T.category = "DEM" ∨ T.category = "LOS002" then
    match fuelsFor [.str T.code, .str "FUE001", .str "FUE002", .str "FUE003",
        T.region.key] labels with
    | .error e => .error e
    | .ok ins => .ok { T with in_fuels := ins }
  else .ok T

/-- The per-triple loop of `initital_RES`. -/
def initTechs : List (String × String × RegV) → List Label → Except PyErr (List Technology)
  | [], _ => .ok []
  | (c, tc, r) :: rest, labels =>
    match add_itech c tc r with
    | .error e => .error e
    | .ok T =>
      match techFlow T labels with
      | .error e => .error e
      | .ok T2 =>
        match initTechs rest labels with
        | .error e => .error e
        | .ok more => .ok (T2 :: more)

/-- `EnergyMatrix.initital_RES` (sic) from the collected labels:
deduplicate the `(category, tech_code, region)` triples, instantiate a
technology per triple, attach its zero-valued fuel slots. -/
def initital_RES (labels : List Label) : Except PyErr (List Technology) :=
  initTechs ((labels.map (fun l => (l.cat, l.tcode, l.region))).dedup) labels

/-- The Structure Builder: `obj_labels` then `initital_RES`. -/
def skeleton_RES (sheets : List Sheet) : Except PyErr (List Technology) :=
  match obj_labels sheets with
  | .error e => .error e
  | .ok labels => initital_RES labels

/-- `EnergyMatrix.add_fuel`: a valued fuel of the tier's class. -/
def add_fuel (sector fcode : String) (energy : Rat) (r : RegV) : Except PyErr Fuel :=
  if sector = "FUE001" then .ok ⟨.primFuel, fcode, r, energy⟩
  else if sector = "FUE002" then .ok ⟨.secFuel, fcode, r, energy⟩
  else if sector = "FUE003" then .ok ⟨.thirdFuel, fcode, r, energy⟩
  else .error .unboundLocal

/-- The column loop of `set_prim_tech`: every recognized fuel column
becomes an output fuel, skipping secondary/tertiary fuels of `PRO` and
negating the energy of `EXP` and `WAS`. -/
def primFuelsRow (tcode : String) (r : RegV) :
    List (String × List Rat) → Nat → Except PyErr (List Fuel)
  | [], _ => .ok []
  | fv :: rest, n =>
    match set_fuel_labels fv.1 with
    | none => primFuelsRow tcode r rest n
    | some (sector, fcode) =>
      if tcode = "PRO" ∧ (sector = "FUE002" ∨ sector = "FUE003") then
        primFuelsRow tcode r rest n
      else
        match add_fuel sector fcode
            (if tcode = "EXP" ∨ tcode = "WAS" then -(fv.2.getD n 0) else fv.2.getD n 0) r with
        | .error e => .error e
        | .ok f =>
          match primFuelsRow tcode r rest n with
          | .error e => .error e
          | .ok fs => .ok (f :: fs)

/-- The column loop of `set_conv_tech`, producing the input and output
fuel lists: `UPS001` splits primary fuels to input and secondary to
output; `UPS002` puts every fuel on the input side and a deep copy of
each secondary fuel on the output side; `UPS003` puts tertiary fuels on
the output side and everything else on the input side.  `UPS001` and
`UPS002` skip tertiary columns. -/
def convFuelsRow (cat : String) (r : RegV) :
    List (String × List Rat) → Nat → Except PyErr (List Fuel × List Fuel)
  | [], _ => .ok ([], [])
  | fv :: rest, n =>
    match set_fuel_labels fv.1 with
    | none => convFuelsRow cat r rest n
    | some (sector, fcode) =>
      if (cat = "UPS001" ∨ cat = "UPS002") ∧ sector = "FUE003" then
        convFuelsRow cat r rest n
      else
        match add_fuel sector fcode (fv.2.getD n 0) r with
        | .error e => .error e
        | .ok f =>
          match convFuelsRow cat r rest n with
          | .error e => .error e
          | .ok (ins, outs) =>
            if cat = "UPS001" then
              if sector = "FUE001" then .ok (f :: ins, outs)
              else if sector = "FUE002" then .ok (ins, f :: outs)
              else .ok (ins, outs)
            else if cat = "UPS002" then
              if sector = "FUE002" then .ok (f :: ins, f :: outs)
              else .ok (f :: ins, outs)
            else
              if sector = "FUE003" then .ok (ins, f :: outs)
              else .ok (f :: ins, outs)

/-- The column loop of `set_demand_tech`: every recognized fuel column
becomes an input fuel with negated energy. -/
def demFuelsRow (r : RegV) :
    List (String × List Rat) → Nat → Except PyErr (List Fuel)
  | [], _ => .ok []
  | fv :: rest, n =>
    match set_fuel_labels fv.1 with
    | none => demFuelsRow r rest n
    | some (sector, fcode) =>
      match add_fuel sector fcode (-(fv.2.getD n 0)) r with
      | .error e => .error e
      | .ok f =>
        match demFuelsRow r rest n with
        | .error e => .error e
        | .ok fs => .ok (f :: fs)

/-- `EnergyMatrix.add_tech`: dispatch on the category to the valued
constructors `set_prim_tech` / `set_conv_tech` / `set_demand_tech`. -/
def add_tech (tcode : String) (r : RegV) (cat : String)
    (fields : List (String × List Rat)) (n : Nat) : Except PyErr Technology :=
  if cat = "SUP" ∨ cat = "LOS001" then
    match primFuelsRow tcode r fields n with
    | .error e => .error e
    | .ok fs => .ok ⟨.primTech, cat, tcode, r, [], fs⟩
  else if cat = "UPS001" ∨ cat = "UPS002" ∨ cat = "UPS003" then
    match convFuelsRow cat r fields n with
    | .error e => .error e
    | .ok p => .ok ⟨.convTech, cat, tcode, r, p.1, p.2⟩
  else if cat = "DEM" ∨ cat = "LOS002" then
    match demFuelsRow r fields n with
    | .error e => .error e
    | .ok fs => .ok ⟨.demandTech, cat, tcode, r, fs, []⟩
  else .error .unboundLocal

/-- The row loop of `data_RES` for one sheet. -/
def sheetTechs (r : RegV) (fields : List (String × List Rat)) :
    List (Nat × String) → Except PyErr (List Technology)
  | [] => .ok []
  | (n, sec) :: rest =>
    match set_technology_labels sec with
    | none => sheetTechs r fields rest
    | some (cat, tcode) =>
      match add_tech tcode r cat fields n with
      | .error e => .error e
      | .ok T =>
        match sheetTechs r fields rest with
        | .error e => .error e
        | .ok more => .ok (T :: more)

/-- The sheet loop of `data_RES` (before `split_flow`). -/
def dataTechs : List Sheet → Except PyErr (List Technology)
  | [] => .ok []
  | sh :: rest =>
    match sheetRegion sh with
    | .error e => .error e
    | .ok r =>
      match sheetTechs r sh.fields sh.sectors.enum with
      | .error e => .error e
      | .ok ts =>
        match dataTechs rest with
        | .error e => .error e
        | .ok more => .ok (ts ++ more)

/-- `EnergyMatrix.data_RES`: the Value Builder — build the valued
technologies then apply the `UPS002` `split_flow` correction as the
last step. -/
def data_RES (sheets : List Sheet) : Except PyErr (List Technology) :=
  match dataTechs sheets with
  | .error e => .error e
  | .ok ts => .ok (split_flow ts)

/-- `EnergyMatrix.fill_RES`: Structure Builder and Value Builder, then
the merge loop. -/
def fill_RES (base data : List Sheet) : Except PyErr (List Technology) :=
  match skeleton_RES base with
  | .error e => .error e
  | .ok itechs =>
    match data_RES data with
    | .error e => .error e
    | .ok techs => fill_RES_merge itechs techs

/-- `EnergyMatrix.build_RES`: merge then reduce the losses. -/
def build_RES (base data : List Sheet) : Except PyErr (List Technology) :=
  match fill_RES base data with
  | .error e => .error e
  | .ok techs => reduce_RES techs

/-! ### Fuel-list correspondence: the precondition under which the
lookup loops of `fill_RES` and `Technology.__add__` behave pointwise -/

/-- The two fuel lists match position-wise by fuel identity. -/
def corrB : List Fuel → List Fuel → Bool
  | [], [] => true
  | f :: fs, g :: gs => fuelEq f g && corrB fs gs
  | _, _ => false

/-- No two fuels of the list share an identity. -/
def pwNE : List Fuel → Bool
  | [] => true
  | g :: gs => gs.all (fun x => !fuelEq g x) && pwNE gs

/-- No two technologies of the list share an identity. -/
def pwNEt : List Technology → Bool
  | [] => true
  | T :: Ts => Ts.all (fun S => !techEq T S) && pwNEt Ts

/-- Total energy of a fuel list. -/
def sumE (fs : List Fuel) : Rat :=
  (fs.map (fun f => f.energy_PJ)).sum

/-- The in-place effect of `was_tech + inv_tech` on the WAS technology
(`Technology.__add__`, primary-loss branch): each output fuel of the
WAS technology gains the energy of the corresponding INV output
fuel. -/
def addFuelEnergy (f g : Fuel) : Fuel :=
  { f with energy_PJ := f.energy_PJ + g.energy_PJ }

/-- The in-place effect of one `fill_RES` fuel copy: the skeleton fuel
takes the valued fuel's energy. -/
def copyFuelEnergy (f g : Fuel) : Fuel :=
  { f with energy_PJ := g.energy_PJ }

def updPrim (w i : Technology) : Technology :=
  { w with out_fuels := List.zipWith addFuelEnergy w.out_fuels i.out_fuels }

/-- The in-place effect of `own_tech + los_tech` on the OWN technology
(`Technology.__add__`, demand-loss branch): each input fuel of the OWN
technology gains the energy of the corresponding LOS input fuel. -/
def updSec (w i : Technology) : Technology :=
  { w with in_fuels := List.zipWith addFuelEnergy w.in_fuels i.in_fuels }

/-- The categories whose input fuel list is copied by `fill_RES`. -/
def copiesIn (c : String) : Prop :=
  c = "UPS001" ∨ c = "UPS002" ∨ c = "UPS003" ∨ c = "DEM" ∨ c = "LOS002"

/-- The categories whose output fuel list is copied by `fill_RES`. -/
def copiesOut (c : String) : Prop :=
  c = "SUP" ∨ c = "LOS001" ∨ c = "UPS001" ∨ c = "UPS002" ∨ c = "UPS003"

/-- A primary crude-oil fuel of region CRI with the given energy. -/
def cruFuel (e : Rat) : Fuel := ⟨.primFuel, "CRU", .code "CRI", e⟩

/-- Concrete technologies and sheets used as inputs of the witnesses
and counterexamples below. -/
def invCRI : Technology := ⟨.primTech, "LOS001", "INV", .code "CRI", [], [cruFuel 2]⟩

def wasCRI : Technology := ⟨.primTech, "LOS001", "WAS", .code "CRI", [], [cruFuel 3]⟩

def wasCRI5 : Technology := ⟨.primTech, "LOS001", "WAS", .code "CRI", [], [cruFuel 5]⟩

def ownCRI : Technology := ⟨.demandTech, "LOS002", "OWN", .code "CRI", [cruFuel (-1)], []⟩

def losCRI : Technology := ⟨.demandTech, "LOS002", "LOS", .code "CRI", [cruFuel (-2)], []⟩

def prodCRI : Technology := ⟨.primTech, "SUP", "PRO", .code "CRI", [], []⟩

def impCRI : Technology := ⟨.primTech, "SUP", "IMP", .code "CRI", [], []⟩

def skeletonPRO : Technology := ⟨.primTech, "SUP", "PRO", .code "CRI", [], [cruFuel 0]⟩

def valuedPRO : Technology :=
  ⟨.primTech, "SUP", "PRO", .code "CRI", [], [cruFuel 1, ⟨.primFuel, "NGS", .code "CRI", 2⟩]⟩

def mergedPRO : Technology := ⟨.primTech, "SUP", "PRO", .code "CRI", [], [cruFuel 1]⟩

def valuedPRO7 : Technology := ⟨.primTech, "SUP", "PRO", .code "CRI", [], [cruFuel 7]⟩

def mergedPRO7 : Technology := ⟨.primTech, "SUP", "PRO", .code "CRI", [], [cruFuel 7]⟩

def swapA : Technology := ⟨.convTech, "UPS001", "CHL", .code "COL", [], []⟩

def swapB : Technology := ⟨.convTech, "UPS001", "COL", .code "CHL", [], []⟩

def sheetAtl : Sheet := ⟨"Region - Atlantis", ["PRODUCCIÓN"], [("PETRÓLEO", [1])]⟩

def atlLabel : Label := ⟨"SUP", "PRO", "FUE001", "CRU", .unre⟩

def atlTech : Technology := ⟨.primTech, "SUP", "PRO", .unre, [], [⟨.primFuel, "CRU", .unre, 0⟩]⟩

def sheetBoi : Sheet :=
  ⟨"Region - Costa Rica", ["COQUERÍA Y ALTOS HORNOS"], [("PETRÓLEO", [3]), ("COQUE", [-2])]⟩

def boiTech : Technology :=
  ⟨.convTech, "UPS002", "BOI", .code "CRI",
   [⟨.primFuel, "CRU", .code "CRI", 0⟩, ⟨.secFuel, "COK", .code "CRI", -2⟩],
   [⟨.secFuel, "COK", .code "CRI", 0⟩]⟩

def sheetCRI : Sheet := ⟨"Region - Costa Rica", ["PRODUCCIÓN"], [("PETRÓLEO", [1])]⟩

/-! ### Basic facts about the Python set-equality model -/

theorem memK_iff {k : Key} {ys : List Key} : memK k ys = true ↔ k ∈ ys := by
  simp only [memK, List.any_eq_true, decide_eq_true_eq]
  constructor
  · rintro ⟨y, hy, rfl⟩; exact hy
  · intro h; exact ⟨k, h, rfl⟩

theorem keySetEq_iff {xs ys : List Key} :
    keySetEq xs ys = true ↔ ∀ k, (k ∈ xs ↔ k ∈ ys) := by
  simp only [keySetEq, Bool.and_eq_true, List.all_eq_true, memK_iff]
  constructor
  · rintro ⟨h1, h2⟩ k; exact ⟨fun h => h1 k h, fun h => h2 k h⟩
  · intro h; exact ⟨fun k hk => (h k).1 hk, fun k hk => (h k).2 hk⟩

theorem techEq_refl (T : Technology) : techEq T T = true :=
  keySetEq_iff.2 (fun _ => Iff.rfl)

theorem techEq_symm {S T : Technology} (h : techEq S T = true) : techEq T S = true :=
  keySetEq_iff.2 (fun k => (keySetEq_iff.1 h k).symm)

theorem techEq_trans {S T U : Technology} (h1 : techEq S T = true)
    (h2 : techEq T U = true) : techEq S U = true :=
  keySetEq_iff.2 (fun k => (keySetEq_iff.1 h1 k).trans (keySetEq_iff.1 h2 k))

theorem fuelEq_refl (f : Fuel) : fuelEq f f = true :=
  keySetEq_iff.2 (fun _ => Iff.rfl)

theorem fuelEq_symm {f g : Fuel} (h : fuelEq f g = true) : fuelEq g f = true :=
  keySetEq_iff.2 (fun k => (keySetEq_iff.1 h k).symm)

theorem fuelEq_trans {f g h : Fuel} (h1 : fuelEq f g = true)
    (h2 : fuelEq g h = true) : fuelEq f h = true :=
  keySetEq_iff.2 (fun k => (keySetEq_iff.1 h1 k).trans (keySetEq_iff.1 h2 k))

theorem regKey_inj : ∀ {r s : RegV}, RegV.key r = RegV.key s → r = s := by
  intro r s h
  cases r <;> cases s <;> simp_all [RegV.key]

theorem techKey_fields {a b : Technology} (h : techKey a = techKey b) :
    a.ttype = b.ttype ∧ a.category = b.category ∧ a.code = b.code ∧ a.region = b.region := by
  simp only [techKey, List.cons.injEq, and_true] at h
  obtain ⟨h1, h2, h3, h4⟩ := h
  exact ⟨by injection h1, by injection h2, by injection h3, regKey_inj h4⟩

theorem techEq_congr_left {a b c : Technology} (h : techKey a = techKey b) :
    techEq a c = techEq b c := by
  simp [techEq, h]

theorem techEq_congr_right {a b c : Technology} (h : techKey a = techKey b) :
    techEq c a = techEq c b := by
  simp [techEq, h]

theorem isCodeReg_iff {c : String} {r : RegV} {T : Technology} :
    isCodeReg c r T = true ↔ T.code = c ∧ T.region = r := by
  simp [isCodeReg]

/-! ### Generic first-occurrence list lemmas -/

theorem find?_eq_of_split {α} {p : α → Bool} :
    ∀ (u : List α) {x : α} (v : List α), (∀ y ∈ u, p y = false) → p x = true →
    (u ++ x :: v).find? p = some x := by
  intro u
  induction u with
  | nil => intro x v _ hx; simp [List.find?, hx]
  | cons a u ih =>
    intro x v hu hx
    have ha : p a = false := hu a (by simp)
    simpa [List.find?, ha] using ih v (fun y hy => hu y (by simp [hy])) hx

theorem filter_eq_singleton_split {α} {p : α → Bool} :
    ∀ {l : List α} {x : α}, l.filter p = [x] →
    ∃ u v, l = u ++ x :: v ∧ (∀ y ∈ u, p y = false) ∧ (∀ y ∈ v, p y = false) ∧
      p x = true := by
  intro l
  induction l with
  | nil => intro x h; simp at h
  | cons a l ih =>
    intro x h
    cases hp : p a with
    | true =>
      rw [List.filter_cons_of_pos hp] at h
      obtain ⟨h1, h2⟩ := List.cons.inj h
      subst h1
      refine ⟨[], l, by simp, by simp, ?_, hp⟩
      intro y hy
      cases hq : p y with
      | true =>
        exfalso
        have : y ∈ l.filter p := List.mem_filter.2 ⟨hy, hq⟩
        rw [h2] at this
        simp at this
      | false => rfl
    | false =>
      rw [List.filter_cons_of_neg (by simp [hp])] at h
      obtain ⟨u, v, rfl, hu, hv, hx⟩ := ih h
      refine ⟨a :: u, v, rfl, ?_, hv, hx⟩
      intro y hy
      rcases List.mem_cons.1 hy with rfl | hy
      · exact hp
      · exact hu y hy

theorem find?_of_filter_singleton {α} {p : α → Bool} {l : List α} {x : α}
    (h : l.filter p = [x]) : l.find? p = some x := by
  obtain ⟨u, v, rfl, hu, _, hx⟩ := filter_eq_singleton_split h
  exact find?_eq_of_split u v hu hx

theorem mem_of_filter_singleton {α} {p : α → Bool} {l : List α} {x : α}
    (h : l.filter p = [x]) : x ∈ l := by
  have : x ∈ l.filter p := by rw [h]; simp
  exact (List.mem_filter.1 this).1

theorem pred_of_filter_singleton {α} {p : α → Bool} {l : List α} {x : α}
    (h : l.filter p = [x]) : p x = true := by
  have : x ∈ l.filter p := by rw [h]; simp
  exact (List.mem_filter.1 this).2

theorem exists_first_match {α} {p : α → Bool} :
    ∀ {l : List α}, (∃ x ∈ l, p x = true) →
    ∃ u z v, l = u ++ z :: v ∧ (∀ y ∈ u, p y = false) ∧ p z = true := by
  intro l
  induction l with
  | nil => rintro ⟨x, hx, _⟩; simp at hx
  | cons a l ih =>
    rintro ⟨x, hx, hpx⟩
    cases hp : p a with
    | true => exact ⟨[], a, l, by simp, by simp, hp⟩
    | false =>
      have hxl : x ∈ l := by
        rcases List.mem_cons.1 hx with rfl | h
        · rw [hp] at hpx; cases hpx
        · exact h
      obtain ⟨u, z, v, rfl, hu, hz⟩ := ih ⟨x, hxl, hpx⟩
      refine ⟨a :: u, z, v, rfl, ?_, hz⟩
      intro y hy
      rcases List.mem_cons.1 hy with rfl | hy
      · exact hp
      · exact hu y hy

theorem mem_append_cons_ne {α} {x t : α} {u v : List α}
    (h : x ∈ u ++ t :: v) (hne : x ≠ t) : x ∈ u ++ v := by
  rcases List.mem_append.1 h with h | h
  · exact List.mem_append.2 (Or.inl h)
  · rcases List.mem_cons.1 h with rfl | h
    · exact absurd rfl hne
    · exact List.mem_append.2 (Or.inr h)

theorem filter_skip_middle {α} {q : α → Bool} {x : α} (l₁ l₂ : List α)
    (hx : q x = false) : (l₁ ++ x :: l₂).filter q = (l₁ ++ l₂).filter q := by
  simp [List.filter_append, List.filter_cons, hx]

theorem append_cons_eq_singleton {α} {xs zs : List α} {y a : α}
    (h : xs ++ y :: zs = [a]) : xs = [] ∧ y = a ∧ zs = [] := by
  cases xs with
  | nil => simpa using h
  | cons b xs =>
    injection h with h1 h2
    exact absurd h2 (by simp)

theorem corrB_mem : ∀ {fs gs : List Fuel}, corrB fs gs = true →
    ∀ {f}, f ∈ fs → ∃ g ∈ gs, fuelEq f g = true := by
  intro fs
  induction fs with
  | nil => intro gs _ f hf; simp at hf
  | cons f0 fs ih =>
    intro gs hc f hf
    cases gs with
    | nil => simp [corrB] at hc
    | cons g0 gs =>
      rw [corrB, Bool.and_eq_true] at hc
      rcases List.mem_cons.1 hf with rfl | hf
      · exact ⟨g0, by simp, hc.1⟩
      · obtain ⟨g, hg, he⟩ := ih hc.2 hf
        exact ⟨g, by simp [hg], he⟩

theorem corrB_length : ∀ {fs gs : List Fuel}, corrB fs gs = true →
    fs.length = gs.length := by
  intro fs
  induction fs with
  | nil => intro gs h; cases gs with
    | nil => rfl
    | cons g gs => simp [corrB] at h
  | cons f fs ih =>
    intro gs h
    cases gs with
    | nil => simp [corrB] at h
    | cons g gs =>
      rw [corrB, Bool.and_eq_true] at h
      simpa using ih h.2

theorem pwNE_head {g : Fuel} {gs : List Fuel} (h : pwNE (g :: gs) = true) :
    (∀ x ∈ gs, fuelEq g x = false) ∧ pwNE gs = true := by
  rw [pwNE, Bool.and_eq_true, List.all_eq_true] at h
  exact ⟨fun x hx => by simpa using h.1 x hx, h.2⟩

/-- The central lookup fact: when the searched list is `pre ++ gs`, no
fuel of `fs` matches anything in `pre`, the lists `fs`/`gs` correspond
position-wise and `gs` has no duplicate identities, then the first
match that `list.index` finds for the `i`-th fuel of `fs` is exactly
the `i`-th fuel of `gs`. -/
theorem findCorr : ∀ (fs gs pre : List Fuel),
    (∀ f ∈ fs, ∀ p ∈ pre, fuelEq f p = false) →
    corrB fs gs = true → pwNE gs = true →
    List.Forall₂ (fun f g => (pre ++ gs).find? (fun x => fuelEq f x) = some g) fs gs := by
  intro fs
  induction fs with
  | nil =>
    intro gs pre _ hc _
    cases gs with
    | nil => exact List.Forall₂.nil
    | cons g gs => simp [corrB] at hc
  | cons f fs ih =>
    intro gs pre hpre hc hp
    cases gs with
    | nil => simp [corrB] at hc
    | cons g gs =>
      rw [corrB, Bool.and_eq_true] at hc
      obtain ⟨hgall, hpgs⟩ := pwNE_head hp
      refine List.Forall₂.cons ?_ ?_
      · exact find?_eq_of_split pre gs
          (fun y hy => hpre f (by simp) y hy) hc.1
      · have hpre2 : ∀ f2 ∈ fs, ∀ p ∈ pre ++ [g], fuelEq f2 p = false := by
          intro f2 hf2 p hp2
          rcases List.mem_append.1 hp2 with hp2 | hp2
          · exact hpre f2 (by simp [hf2]) p hp2
          · have hpg : p = g := by simpa using hp2
            subst hpg
            cases he : fuelEq f2 p with
            | false => rfl
            | true =>
              exfalso
              obtain ⟨g2, hg2, he2⟩ := corrB_mem hc.2 hf2
              have : fuelEq p g2 = true := fuelEq_trans (fuelEq_symm he) he2
              rw [hgall g2 hg2] at this
              cases this
        have := ih gs (pre ++ [g]) hpre2 hc.2 hpgs
        simpa [List.append_assoc] using this

/-- `copyEnergies` under position-wise lookup facts: each skeleton fuel
receives the energy of its corresponding valued fuel. -/
theorem copyEnergies_of {G : List Fuel} : ∀ {fs hs : List Fuel},
    List.Forall₂ (fun f g => G.find? (fun x => fuelEq f x) = some g) fs hs →
    copyEnergies fs G = .ok (List.zipWith copyFuelEnergy fs hs) := by
  intro fs hs h
  induction h with
  | nil => rfl
  | cons hfg _ ih =>
    rw [copyEnergies, hfg, ih]
    rfl

/-- `sumFuelsInto` under position-wise lookup facts: each self fuel
gains the energy of its corresponding other fuel. -/
theorem sumFuelsInto_of {G : List Fuel} : ∀ {fs hs : List Fuel},
    List.Forall₂ (fun f g => G.find? (fun x => fuelEq f x) = some g) fs hs →
    sumFuelsInto fs G = some (List.zipWith addFuelEnergy fs hs) := by
  intro fs hs h
  induction h with
  | nil => rfl
  | cons hfg _ ih =>
    rw [sumFuelsInto, hfg, ih]
    rfl

theorem copyEnergies_corr {fs gs : List Fuel} (hc : corrB fs gs = true)
    (hp : pwNE gs = true) :
    copyEnergies fs gs = .ok (List.zipWith copyFuelEnergy fs gs) :=
  copyEnergies_of (by simpa using findCorr fs gs [] (by simp) hc hp)

theorem sumFuelsInto_corr {fs gs : List Fuel} (hc : corrB fs gs = true)
    (hp : pwNE gs = true) :
    sumFuelsInto fs gs = some (List.zipWith addFuelEnergy fs gs) :=
  sumFuelsInto_of (by simpa using findCorr fs gs [] (by simp) hc hp)

theorem sumE_zip_copy : ∀ {fs gs : List Fuel}, fs.length = gs.length →
    sumE (List.zipWith copyFuelEnergy fs gs) = sumE gs := by
  intro fs
  induction fs with
  | nil => intro gs h; cases gs with
    | nil => rfl
    | cons g gs => simp at h
  | cons f fs ih =>
    intro gs h
    cases gs with
    | nil => simp at h
    | cons g gs =>
      simp only [List.zipWith, sumE, List.map, List.sum_cons, copyFuelEnergy] at *
      rw [ih (by simpa using h)]

/-! ### Pairwise-distinct technology lists -/

theorem pwNEt_head {T : Technology} {Ts : List Technology}
    (h : pwNEt (T :: Ts) = true) :
    (∀ S ∈ Ts, techEq T S = false) ∧ pwNEt Ts = true := by
  rw [pwNEt, Bool.and_eq_true, List.all_eq_true] at h
  exact ⟨fun S hS => by simpa using h.1 S hS, h.2⟩

theorem pwNEt_cons {T : Technology} {Ts : List Technology}
    (h1 : ∀ S ∈ Ts, techEq T S = false) (h2 : pwNEt Ts = true) :
    pwNEt (T :: Ts) = true := by
  rw [pwNEt, Bool.and_eq_true, List.all_eq_true]
  exact ⟨fun S hS => by simpa using h1 S hS, h2⟩

theorem pwNEt_append : ∀ {u v : List Technology},
    pwNEt (u ++ v) = true ↔
      pwNEt u = true ∧ pwNEt v = true ∧
      ∀ x ∈ u, ∀ y ∈ v, techEq x y = false := by
  intro u
  induction u with
  | nil => intro v; simp [pwNEt]
  | cons a u ih =>
    intro v
    constructor
    · intro h
      obtain ⟨h1, h2⟩ := pwNEt_head h
      obtain ⟨hu, hv, huv⟩ := ih.1 h2
      refine ⟨pwNEt_cons (fun S hS => h1 S (by simp [hS])) hu, hv, ?_⟩
      intro x hx y hy
      rcases List.mem_cons.1 hx with rfl | hx
      · exact h1 y (by simp [hy])
      · exact huv x hx y hy
    · rintro ⟨ha, hv, hav⟩
      obtain ⟨h1, h2⟩ := pwNEt_head ha
      refine pwNEt_cons ?_ (ih.2 ⟨h2, hv, fun x hx y hy => hav x (by simp [hx]) y hy⟩)
      intro S hS
      rcases List.mem_append.1 hS with hS | hS
      · exact h1 S hS
      · exact hav a (by simp) S hS

theorem pwNEt_pair : ∀ {l : List Technology}, pwNEt l = true →
    ∀ {x y : Technology}, x ∈ l → y ∈ l → x ≠ y → techEq x y = false := by
  intro l
  induction l with
  | nil => intro _ x y hx; simp at hx
  | cons a l ih =>
    intro h x y hx hy hne
    obtain ⟨h1, h2⟩ := pwNEt_head h
    rcases List.mem_cons.1 hx with h3 | h3
    · rcases List.mem_cons.1 hy with h4 | h4
      · exact absurd (h3.trans h4.symm) hne
      · rw [h3]; exact h1 y h4
    · rcases List.mem_cons.1 hy with h4 | h4
      · cases he : techEq x y with
        | false => rfl
        | true =>
          exfalso
          have hsym := techEq_symm he
          rw [h4, h1 x h3] at hsym
          cases hsym
      · exact ih h2 h3 h4 hne

theorem pwNEt_replace_mid {u v : List Technology} {w W : Technology}
    (hk : techKey W = techKey w) (h : pwNEt (u ++ w :: v) = true) :
    pwNEt (u ++ W :: v) = true := by
  obtain ⟨hu, hwv, huwv⟩ := pwNEt_append.1 h
  obtain ⟨h1, h2⟩ := pwNEt_head hwv
  refine pwNEt_append.2 ⟨hu, pwNEt_cons ?_ h2, ?_⟩
  · intro S hS
    rw [techEq_congr_left hk]
    exact h1 S hS
  · intro x hx y hy
    rcases List.mem_cons.1 hy with rfl | hy
    · rw [techEq_congr_right hk]
      exact huwv x hx w (by simp)
    · exact huwv x hx y (by simp [hy])

theorem pwNEt_delete_mid {u v : List Technology} {x : Technology}
    (h : pwNEt (u ++ x :: v) = true) : pwNEt (u ++ v) = true := by
  obtain ⟨hu, hxv, huxv⟩ := pwNEt_append.1 h
  obtain ⟨_, h2⟩ := pwNEt_head hxv
  exact pwNEt_append.2 ⟨hu, h2, fun a ha y hy => huxv a ha y (by simp [hy])⟩

theorem replaceFirst_split {u v : List Technology} {x y : Technology}
    {p : Technology → Bool} (hu : ∀ z ∈ u, p z = false) (hx : p x = true) :
    replaceFirst p y (u ++ x :: v) = u ++ y :: v := by
  induction u with
  | nil => simp [replaceFirst, hx]
  | cons a u ih =>
    have ha : p a = false := hu a (by simp)
    simp only [List.cons_append, replaceFirst, ha, Bool.false_eq_true, if_false,
      List.cons.injEq, true_and]
    exact ih (fun z hz => hu z (by simp [hz]))

theorem removeFirstEq_split {u v : List Technology} {x t : Technology}
    (hu : ∀ z ∈ u, techEq z t = false) (hx : techEq x t = true) :
    removeFirstEq t (u ++ x :: v) = .ok (u ++ v) := by
  induction u with
  | nil => simp [removeFirstEq, hx]
  | cons a u ih =>
    have ha : techEq a t = false := hu a (by simp)
    simp only [List.cons_append, removeFirstEq, ha, Bool.false_eq_true, if_false,
      List.append_eq]
    rw [ih (fun z hz => hu z (by simp [hz]))]

theorem mem_append_cons_of_mem {α} {x i : α} {p q : List α}
    (h : x ∈ p ++ q) : x ∈ p ++ i :: q := by
  rcases List.mem_append.1 h with h | h
  · exact List.mem_append.2 (Or.inl h)
  · exact List.mem_append.2 (Or.inr (by simp [h]))


/-- Everything a single region's loss-reduction step does, under the
preconditions that the region holds exactly one `cS`-coded and one
`cO`-coded technology, technologies have pairwise distinct identities,
and the addition succeeds returning the identity-preserving update `W`
of the `cS` technology. -/
theorem loss_pass_step {cS cO : String} (hcc : cS ≠ cO)
    {acc : List Technology} {r : RegV} {w i W : Technology}
    (hpw : pwNEt acc = true)
    (hfw : acc.filter (isCodeReg cS r) = [w])
    (hfi : acc.filter (isCodeReg cO r) = [i])
    (hadd : techAdd w i = .ok W)
    (hK : techKey W = techKey w) :
    ∃ acc1, loss_pass cS cO acc r = .ok acc1 ∧
      pwNEt acc1 = true ∧
      W ∈ acc1 ∧
      (∀ T ∈ acc1, T ∈ acc ∨ T = W) ∧
      (∀ T ∈ acc, isCodeReg cS r T = false → isCodeReg cO r T = false → T ∈ acc1) ∧
      acc1.filter (isCodeReg cO r) = [] ∧
      (∀ q : Technology → Bool, q w = false → q W = false → q i = false →
        acc1.filter q = acc.filter q) := by
  obtain ⟨u, v, hacc, hu, hv, hpwx⟩ := filter_eq_singleton_split hfw
  obtain ⟨wc, wr⟩ := isCodeReg_iff.1 hpwx
  have hpix : isCodeReg cO r i = true := pred_of_filter_singleton hfi
  obtain ⟨ic, ir⟩ := isCodeReg_iff.1 hpix
  have hWfields := techKey_fields hK
  have hiw : i ≠ w := by
    intro h
    exact hcc (by rw [← wc, ← h, ic])
  have himem : i ∈ acc := mem_of_filter_singleton hfi
  have hwmem : w ∈ acc := mem_of_filter_singleton hfw
  have hEwi : techEq w i = false := pwNEt_pair hpw hwmem himem (fun h => hiw h.symm)
  have hEWi : techEq W i = false := by
    rw [techEq_congr_left hK]
    exact hEwi
  have hfindw : acc.find? (isCodeReg cS r) = some w := find?_of_filter_singleton hfw
  have hfindi : acc.find? (isCodeReg cO r) = some i := find?_of_filter_singleton hfi
  have hlp : loss_pass cS cO acc r =
      removeFirstEq i (replaceFirst (isCodeReg cS r) W acc) := by
    simp only [loss_pass, hfindw, hfindi, hadd]
  have hrep : replaceFirst (isCodeReg cS r) W acc = u ++ W :: v := by
    rw [hacc]
    exact replaceFirst_split hu hpwx
  have himem2 : i ∈ u ++ W :: v := by
    have h0 : i ∈ u ++ v := by
      rw [hacc] at himem
      exact mem_append_cons_ne himem hiw
    exact mem_append_cons_of_mem h0
  obtain ⟨p1, z, q1, hsplit, hp1, hz⟩ :=
    exists_first_match (p := fun y => techEq y i) ⟨i, himem2, techEq_refl i⟩
  have hzmem : z ∈ u ++ W :: v := by
    rw [hsplit]
    simp
  have hzi : z = i := by
    by_contra hne
    have hzacc : z ∈ acc := by
      rcases List.mem_append.1 hzmem with h0 | h0
      · rw [hacc]
        exact List.mem_append.2 (Or.inl h0)
      · rcases List.mem_cons.1 h0 with h1 | h1
        · exfalso
          rw [h1, hEWi] at hz
          cases hz
        · rw [hacc]
          exact List.mem_append.2 (Or.inr (List.mem_cons.2 (Or.inr h1)))
    rw [pwNEt_pair hpw hzacc himem hne] at hz
    cases hz
  subst hzi
  have hrem : removeFirstEq z (u ++ W :: v) = .ok (p1 ++ q1) := by
    rw [hsplit]
    exact removeFirstEq_split hp1 hz
  have hWcode : W.code = cS := by rw [hWfields.2.2.1, wc]
  have hWi : W ≠ z := by
    intro h
    rw [h, techEq_refl] at hEWi
    cases hEWi
  have hpw1 : pwNEt (p1 ++ q1) = true := by
    have h1 : pwNEt (u ++ W :: v) = true := by
      refine pwNEt_replace_mid hK ?_
      rw [← hacc]
      exact hpw
    rw [hsplit] at h1
    exact pwNEt_delete_mid h1
  have hWmem1 : W ∈ p1 ++ q1 := by
    have h0 : W ∈ u ++ W :: v := by simp
    rw [hsplit] at h0
    exact mem_append_cons_ne h0 hWi
  have hqgen : ∀ q : Technology → Bool, q w = false → q W = false → q z = false →
      (p1 ++ q1).filter q = acc.filter q := by
    intro q hqw hqW hqi
    have e1 : (p1 ++ q1).filter q = (p1 ++ z :: q1).filter q :=
      (filter_skip_middle p1 q1 hqi).symm
    have e2 : (u ++ W :: v).filter q = (u ++ v).filter q := filter_skip_middle u v hqW
    have e3 : (u ++ w :: v).filter q = (u ++ v).filter q := filter_skip_middle u v hqw
    rw [e1, ← hsplit, e2, ← e3, ← hacc]
  have hqcO : isCodeReg cO r w = false := by
    cases hq : isCodeReg cO r w with
    | false => rfl
    | true => exact absurd (by rw [← wc, (isCodeReg_iff.1 hq).1]) hcc
  have hqcOW : isCodeReg cO r W = false := by
    cases hq : isCodeReg cO r W with
    | false => rfl
    | true => exact absurd (by rw [← hWcode, (isCodeReg_iff.1 hq).1]) hcc
  have hfO : (p1 ++ q1).filter (isCodeReg cO r) = [] := by
    have e2 : (u ++ W :: v).filter (isCodeReg cO r) = (u ++ v).filter (isCodeReg cO r) :=
      filter_skip_middle u v hqcOW
    have e3 : (u ++ w :: v).filter (isCodeReg cO r) = (u ++ v).filter (isCodeReg cO r) :=
      filter_skip_middle u v hqcO
    have e1 : (u ++ W :: v).filter (isCodeReg cO r) = [z] := by
      rw [e2, ← e3, ← hacc, hfi]
    rw [hsplit] at e1
    rw [List.filter_append, List.filter_cons_of_pos hpix] at e1
    obtain ⟨e4, _, e5⟩ := append_cons_eq_singleton e1
    rw [List.filter_append, e4, e5]
    rfl
  refine ⟨p1 ++ q1, by rw [hlp, hrep, hrem], hpw1, hWmem1, ?_, ?_, hfO, hqgen⟩
  · intro T hT
    have h0 : T ∈ p1 ++ z :: q1 := mem_append_cons_of_mem hT
    rw [← hsplit] at h0
    rcases List.mem_append.1 h0 with h1 | h1
    · refine Or.inl ?_
      rw [hacc]
      exact List.mem_append.2 (Or.inl h1)
    · rcases List.mem_cons.1 h1 with h2 | h2
      · exact Or.inr h2
      · refine Or.inl ?_
        rw [hacc]
        exact List.mem_append.2 (Or.inr (List.mem_cons.2 (Or.inr h2)))
  · intro T hT hTS hTO
    have hTw : T ≠ w := by
      intro h
      rw [h, hpwx] at hTS
      cases hTS
    have hTi : T ≠ z := by
      intro h
      rw [h, hpix] at hTO
      cases hTO
    rw [hacc] at hT
    have h0 : T ∈ u ++ v := mem_append_cons_ne hT hTw
    have h1 : T ∈ u ++ W :: v := mem_append_cons_of_mem h0
    rw [hsplit] at h1
    exact mem_append_cons_ne h1 hTi

theorem filter_eq_nil_of_all {α} {p : α → Bool} :
    ∀ {l : List α}, (∀ x ∈ l, p x = false) → l.filter p = [] := by
  intro l
  induction l with
  | nil => intro _; rfl
  | cons a l ih =>
    intro h
    rw [List.filter_cons_of_neg (by simp [h a (by simp)])]
    exact ih (fun x hx => h x (by simp [hx]))

theorem isCodeReg_false_of_region {c : String} {r2 : RegV} {T : Technology}
    (h : T.region ≠ r2) : isCodeReg c r2 T = false := by
  cases hq : isCodeReg c r2 T with
  | false => rfl
  | true => exact absurd (isCodeReg_iff.1 hq).2 h

/-- The full `for r in regions` loop of a loss-reduction pass, for any
self/other code pair and any identity-preserving successful addition:
the pass succeeds, every other-coded technology of a processed region
is gone, the updated self-coded technology of each processed region is
in the result, technologies of no processed region survive untouched,
and every result element is an input element or an updated self. -/
theorem loss_run_general (cS cO : String) (hcc : cS ≠ cO)
    (P : Technology → Technology → Prop)
    (upd : Technology → Technology → Technology)
    (Hadd : ∀ w i, P w i → techAdd w i = .ok (upd w i))
    (HKey : ∀ w i, techKey (upd w i) = techKey w) :
    ∀ (rs : List RegV), rs.Nodup → ∀ (acc : List Technology),
    pwNEt acc = true →
    (∀ r ∈ rs, ∃ w i, acc.filter (isCodeReg cS r) = [w] ∧
      acc.filter (isCodeReg cO r) = [i] ∧ P w i) →
    ∃ res, runRegions (loss_pass cS cO) acc rs = .ok res ∧
      (∀ T ∈ res, T ∈ acc ∨ T.code = cS) ∧
      (∀ r ∈ rs, ∀ w i, acc.filter (isCodeReg cS r) = [w] →
        acc.filter (isCodeReg cO r) = [i] → upd w i ∈ res) ∧
      (∀ r ∈ rs, res.filter (isCodeReg cO r) = []) ∧
      (∀ T ∈ acc, (∀ r ∈ rs, isCodeReg cS r T = false ∧ isCodeReg cO r T = false) →
        T ∈ res) := by
  intro rs
  induction rs with
  | nil =>
    intro _ acc hpw _
    exact ⟨acc, rfl, fun T hT => Or.inl hT, by simp, by simp, fun T hT _ => hT⟩
  | cons r rs ih =>
    intro hnd acc hpw hpair
    have hndr : r ∉ rs := (List.nodup_cons.1 hnd).1
    have hndrs : rs.Nodup := (List.nodup_cons.1 hnd).2
    obtain ⟨w, i, hfw, hfi, hP⟩ := hpair r (by simp)
    have hadd := Hadd w i hP
    have hK := HKey w i
    obtain ⟨acc1, hstep, hpw1, hWmem, hM, hKeep, hO1, hqgen⟩ :=
      loss_pass_step hcc hpw hfw hfi hadd hK
    have hw_pred : isCodeReg cS r w = true := pred_of_filter_singleton hfw
    have hi_pred : isCodeReg cO r i = true := pred_of_filter_singleton hfi
    obtain ⟨wc, wr⟩ := isCodeReg_iff.1 hw_pred
    obtain ⟨ic, ir⟩ := isCodeReg_iff.1 hi_pred
    have hWf := techKey_fields hK
    have hrne : ∀ r2 ∈ rs, r2 ≠ r := fun r2 h hr => hndr (hr ▸ h)
    have hWreg : (upd w i).region = r := by rw [hWf.2.2.2, wr]
    have htrans : ∀ r2 ∈ rs, ∀ c : String,
        acc1.filter (isCodeReg c r2) = acc.filter (isCodeReg c r2) := by
      intro r2 hr2 c
      refine hqgen _ ?_ ?_ ?_
      · exact isCodeReg_false_of_region (by rw [wr]; exact fun h => hrne r2 hr2 h.symm)
      · exact isCodeReg_false_of_region (by rw [hWreg]; exact fun h => hrne r2 hr2 h.symm)
      · exact isCodeReg_false_of_region (by rw [ir]; exact fun h => hrne r2 hr2 h.symm)
    have hpair1 : ∀ r2 ∈ rs, ∃ w2 i2, acc1.filter (isCodeReg cS r2) = [w2] ∧
        acc1.filter (isCodeReg cO r2) = [i2] ∧ P w2 i2 := by
      intro r2 hr2
      obtain ⟨w2, i2, h1, h2, h3⟩ := hpair r2 (by simp [hr2])
      refine ⟨w2, i2, ?_, ?_, h3⟩
      · rw [htrans r2 hr2 cS]; exact h1
      · rw [htrans r2 hr2 cO]; exact h2
    obtain ⟨res, hrun, hN, hU, hO, hKp⟩ := ih hndrs acc1 hpw1 hpair1
    refine ⟨res, ?_, ?_, ?_, ?_, ?_⟩
    · rw [runRegions, hstep]
      exact hrun
    · intro T hT
      rcases hN T hT with h1 | h1
      · rcases hM T h1 with h2 | h2
        · exact Or.inl h2
        · refine Or.inr ?_
          rw [h2, hWf.2.2.1, wc]
      · exact Or.inr h1
    · intro r0 hr0 w0 i0 h1 h2
      rcases List.mem_cons.1 hr0 with h3 | h3
      · subst h3
        have hw0 : w = w0 := by
          have h4 := hfw.symm.trans h1
          exact (List.cons.inj h4).1
        have hi0 : i = i0 := by
          have h4 := hfi.symm.trans h2
          exact (List.cons.inj h4).1
        subst hw0
        subst hi0
        refine hKp (upd w i) hWmem ?_
        intro r2 hr2
        constructor
        · exact isCodeReg_false_of_region
            (by rw [hWreg]; exact fun h => hrne r2 hr2 h.symm)
        · exact isCodeReg_false_of_region
            (by rw [hWreg]; exact fun h => hrne r2 hr2 h.symm)
      · refine hU r0 h3 w0 i0 ?_ ?_
        · rw [htrans r0 h3 cS]; exact h1
        · rw [htrans r0 h3 cO]; exact h2
    · intro r0 hr0
      rcases List.mem_cons.1 hr0 with h3 | h3
      · subst h3
        refine filter_eq_nil_of_all ?_
        intro T hT
        rcases hN T hT with h1 | h1
        · cases hq : isCodeReg cO r0 T with
          | false => rfl
          | true =>
            exfalso
            have h2 : T ∈ acc1.filter (isCodeReg cO r0) := List.mem_filter.2 ⟨h1, hq⟩
            rw [hO1] at h2
            simp at h2
        · cases hq : isCodeReg cO r0 T with
          | false => rfl
          | true =>
            exfalso
            exact hcc (by rw [← h1, (isCodeReg_iff.1 hq).1])
      · exact hO r0 h3
    · intro T hT hprop
      have h1 : T ∈ acc1 := hKeep T hT (hprop r (by simp)).1 (hprop r (by simp)).2
      exact hKp T h1 (fun r2 hr2 => hprop r2 (by simp [hr2]))

/-! ### The two loss reductions -/

theorem techAdd_prim {w i : Technology} (hty : w.ttype = i.ttype)
    (hw : w.code = "WAS") (hi : i.code = "INV")
    (hc : corrB w.out_fuels i.out_fuels = true) (hp : pwNE i.out_fuels = true) :
    techAdd w i = .ok (updPrim w i) := by
  have hs := sumFuelsInto_corr hc hp
  have e1 : strSetEq [w.code, i.code] ["INV", "WAS"] = true := by
    rw [hw, hi]; rfl
  rw [techAdd, if_pos hty, if_pos e1, hs]
  rfl

theorem techAdd_sec {w i : Technology} (hty : w.ttype = i.ttype)
    (hw : w.code = "OWN") (hi : i.code = "LOS")
    (hc : corrB w.in_fuels i.in_fuels = true) (hp : pwNE i.in_fuels = true) :
    techAdd w i = .ok (updSec w i) := by
  have hs := sumFuelsInto_corr hc hp
  have e0 : strSetEq [w.code, i.code] ["INV", "WAS"] = false := by
    rw [hw, hi]; rfl
  have e1 : strSetEq [w.code, i.code] ["OWN", "LOS"] = true := by
    rw [hw, hi]; rfl
  rw [techAdd, if_pos hty, if_neg (by simp [e0]), if_pos e1, hs]
  rfl

/-- Claim C1 (counterexample): on the spec's own scenario — region CRI
with "INV" carrying output fuel (Primary, CRU, CRI, 2.0) and "WAS"
carrying (Primary, CRU, CRI, 3.0) — `sum_prim_loss_tech` keeps the
"WAS" technology with the summed fuel at 5.0 and removes "INV", the
exact opposite of the claim that "INV" survives and "WAS" is absent. -/
theorem claim_C1_counterexample :
    sum_prim_loss_tech [invCRI, wasCRI] = .ok [wasCRI5] ∧
    wasCRI5.code = "WAS" ∧ ¬ wasCRI5.code = "INV" := by
  have hadd : techAdd wasCRI invCRI = .ok (updPrim wasCRI invCRI) :=
    techAdd_prim (by decide) (by decide) (by decide) (by decide) (by decide)
  have hW : updPrim wasCRI invCRI = wasCRI5 := by
    have hrat : (3 : Rat) + 2 = 5 := by norm_num
    simp [updPrim, wasCRI, invCRI, wasCRI5, cruFuel, addFuelEnergy, hrat]
  have hrep : replaceFirst (isCodeReg "WAS" (RegV.code "CRI")) wasCRI5 [invCRI, wasCRI] =
      [invCRI, wasCRI5] := by decide
  have hrem : removeFirstEq invCRI [invCRI, wasCRI5] = .ok [wasCRI5] := by decide
  have hstep : loss_pass "WAS" "INV" [invCRI, wasCRI] (RegV.code "CRI") = .ok [wasCRI5] := by
    have hfw : List.find? (isCodeReg "WAS" (RegV.code "CRI")) [invCRI, wasCRI] =
        some wasCRI := by decide
    have hfi : List.find? (isCodeReg "INV" (RegV.code "CRI")) [invCRI, wasCRI] =
        some invCRI := by decide
    simp only [loss_pass, hfw, hfi, hadd, hW, hrep, hrem]
  have hreg : regionsOf [invCRI, wasCRI] = [RegV.code "CRI"] := by decide
  refine ⟨?_, by decide, by decide⟩
  rw [sum_prim_loss_tech, hreg]
  simp only [runRegions, hstep]

/-- Claim C1 (amended): for every region of the list holding exactly
one "WAS" and exactly one "INV" technology (same class, output fuel
lists matching one-to-one by identity), and with all technology
identities pairwise distinct, `sum_prim_loss_tech` succeeds, the WAS
technology survives carrying per output fuel the sum of both prior
energies (`updPrim`), and no INV technology of that region remains. -/
theorem claim_C1_amended (techs : List Technology)
    (hpw : pwNEt techs = true)
    (hpair : ∀ r ∈ regionsOf techs, ∃ w i,
      techs.filter (isCodeReg "WAS" r) = [w] ∧
      techs.filter (isCodeReg "INV" r) = [i] ∧
      w.ttype = i.ttype ∧ corrB w.out_fuels i.out_fuels = true ∧
      pwNE i.out_fuels = true) :
    ∃ res, sum_prim_loss_tech techs = .ok res ∧
      ∀ r ∈ regionsOf techs,
        res.filter (isCodeReg "INV" r) = [] ∧
        ∀ w i, techs.filter (isCodeReg "WAS" r) = [w] →
          techs.filter (isCodeReg "INV" r) = [i] → updPrim w i ∈ res := by
  have hpair2 : ∀ r ∈ regionsOf techs, ∃ w i,
      techs.filter (isCodeReg "WAS" r) = [w] ∧
      techs.filter (isCodeReg "INV" r) = [i] ∧
      (w.ttype = i.ttype ∧ w.code = "WAS" ∧ i.code = "INV" ∧
        corrB w.out_fuels i.out_fuels = true ∧ pwNE i.out_fuels = true) := by
    intro r hr
    obtain ⟨w, i, h1, h2, h3, h4, h5⟩ := hpair r hr
    have hwcode := (isCodeReg_iff.1 (pred_of_filter_singleton h1)).1
    have hicode := (isCodeReg_iff.1 (pred_of_filter_singleton h2)).1
    exact ⟨w, i, h1, h2, h3, hwcode, hicode, h4, h5⟩
  obtain ⟨res, hrun, _, hU, hO, _⟩ :=
    loss_run_general "WAS" "INV" (by decide)
      (fun w i => w.ttype = i.ttype ∧ w.code = "WAS" ∧ i.code = "INV" ∧
        corrB w.out_fuels i.out_fuels = true ∧ pwNE i.out_fuels = true)
      updPrim
      (fun w i hp => techAdd_prim hp.1 hp.2.1 hp.2.2.1 hp.2.2.2.1 hp.2.2.2.2)
      (fun w i => rfl)
      (regionsOf techs) (List.nodup_dedup _) techs hpw hpair2
  exact ⟨res, hrun, fun r hr => ⟨hO r hr, fun w i h1 h2 => hU r hr w i h1 h2⟩⟩

/-- Claim C1 (witness): the amended theorem applied to the concrete
CRI scenario. -/
theorem claim_C1_witness :
    ∃ res, sum_prim_loss_tech [invCRI, wasCRI] = .ok res ∧
      ∀ r ∈ regionsOf [invCRI, wasCRI],
        res.filter (isCodeReg "INV" r) = [] ∧
        ∀ w i, [invCRI, wasCRI].filter (isCodeReg "WAS" r) = [w] →
          [invCRI, wasCRI].filter (isCodeReg "INV" r) = [i] → updPrim w i ∈ res := by
  refine claim_C1_amended [invCRI, wasCRI] (by decide) ?_
  intro r hr
  have e : regionsOf [invCRI, wasCRI] = [RegV.code "CRI"] := by decide
  rw [e] at hr
  have hr2 : r = RegV.code "CRI" := by simpa using hr
  subst hr2
  exact ⟨wasCRI, invCRI, by decide, by decide, by decide, by decide, by decide⟩

/-- Claim C7: for every region of the list holding exactly one "OWN"
and exactly one "LOS" technology (same class, input fuel lists
matching one-to-one by identity), and with all technology identities
pairwise distinct, `sum_sec_loss_tech` succeeds, the OWN technology
survives carrying per input fuel the sum of its own and the LOS
technology's prior energies (`updSec`), and no LOS technology of that
region remains. -/
theorem claim_C7_theorem (techs : List Technology)
    (hpw : pwNEt techs = true)
    (hpair : ∀ r ∈ regionsOf techs, ∃ w i,
      techs.filter (isCodeReg "OWN" r) = [w] ∧
      techs.filter (isCodeReg "LOS" r) = [i] ∧
      w.ttype = i.ttype ∧ corrB w.in_fuels i.in_fuels = true ∧
      pwNE i.in_fuels = true) :
    ∃ res, sum_sec_loss_tech techs = .ok res ∧
      ∀ r ∈ regionsOf techs,
        res.filter (isCodeReg "LOS" r) = [] ∧
        ∀ w i, techs.filter (isCodeReg "OWN" r) = [w] →
          techs.filter (isCodeReg "LOS" r) = [i] → updSec w i ∈ res := by
  have hpair2 : ∀ r ∈ regionsOf techs, ∃ w i,
      techs.filter (isCodeReg "OWN" r) = [w] ∧
      techs.filter (isCodeReg "LOS" r) = [i] ∧
      (w.ttype = i.ttype ∧ w.code = "OWN" ∧ i.code = "LOS" ∧
        corrB w.in_fuels i.in_fuels = true ∧ pwNE i.in_fuels = true) := by
    intro r hr
    obtain ⟨w, i, h1, h2, h3, h4, h5⟩ := hpair r hr
    have hwcode := (isCodeReg_iff.1 (pred_of_filter_singleton h1)).1
    have hicode := (isCodeReg_iff.1 (pred_of_filter_singleton h2)).1
    exact ⟨w, i, h1, h2, h3, hwcode, hicode, h4, h5⟩
  obtain ⟨res, hrun, _, hU, hO, _⟩ :=
    loss_run_general "OWN" "LOS" (by decide)
      (fun w i => w.ttype = i.ttype ∧ w.code = "OWN" ∧ i.code = "LOS" ∧
        corrB w.in_fuels i.in_fuels = true ∧ pwNE i.in_fuels = true)
      updSec
      (fun w i hp => techAdd_sec hp.1 hp.2.1 hp.2.2.1 hp.2.2.2.1 hp.2.2.2.2)
      (fun w i => rfl)
      (regionsOf techs) (List.nodup_dedup _) techs hpw hpair2
  exact ⟨res, hrun, fun r hr => ⟨hO r hr, fun w i h1 h2 => hU r hr w i h1 h2⟩⟩

/-- Claim C7 (witness): region CRI with OWN carrying input fuel
(CRU, -1.0) and LOS carrying (CRU, -2.0). -/
theorem claim_C7_witness :
    ∃ res, sum_sec_loss_tech [ownCRI, losCRI] = .ok res ∧
      ∀ r ∈ regionsOf [ownCRI, losCRI],
        res.filter (isCodeReg "LOS" r) = [] ∧
        ∀ w i, [ownCRI, losCRI].filter (isCodeReg "OWN" r) = [w] →
          [ownCRI, losCRI].filter (isCodeReg "LOS" r) = [i] → updSec w i ∈ res := by
  refine claim_C7_theorem [ownCRI, losCRI] (by decide) ?_
  intro r hr
  have e : regionsOf [ownCRI, losCRI] = [RegV.code "CRI"] := by decide
  rw [e] at hr
  have hr2 : r = RegV.code "CRI" := by simpa using hr
  subst hr2
  exact ⟨ownCRI, losCRI, by decide, by decide, by decide, by decide, by decide⟩

/-- Claim C4 (counterexample): an already-reduced, non-empty list — a
single Supply technology, no waste/losses technology present — makes
the Loss Reducer raise an IndexError instead of acting as a no-op. -/
theorem claim_C4_counterexample :
    reduce_RES [impCRI] = .error PyErr.indexError ∧
    ¬ reduce_RES [impCRI] = .ok [impCRI] := by decide

/-- Claim C4 (amended): running the Loss Reducer on the empty list is
a no-op; on any non-empty list with no "WAS"-coded technology (in
particular any non-empty already-reduced list) it raises an IndexError
from the `[0]` lookup of the first region's waste technology. -/
theorem claim_C4_amended :
    reduce_RES ([] : List Technology) = .ok [] ∧
    ∀ techs : List Technology, techs ≠ [] → (∀ T ∈ techs, ¬ T.code = "WAS") →
      reduce_RES techs = .error PyErr.indexError := by
  constructor
  · rfl
  · intro techs hne hno
    obtain ⟨r, rs, hreg⟩ : ∃ r rs, regionsOf techs = r :: rs := by
      cases h : regionsOf techs with
      | cons r rs => exact ⟨r, rs, rfl⟩
      | nil =>
        exfalso
        have h2 : techs.map (fun T => T.region) = [] := (List.dedup_eq_nil _).1 h
        exact hne (List.map_eq_nil_iff.1 h2)
    have hfind : techs.find? (isCodeReg "WAS" r) = none := by
      apply List.find?_eq_none.2
      intro x hx hpx
      exact hno x hx (isCodeReg_iff.1 hpx).1
    have hstep : loss_pass "WAS" "INV" techs r = .error .indexError := by
      simp only [loss_pass, hfind]
    have hsp : sum_prim_loss_tech techs = .error .indexError := by
      rw [sum_prim_loss_tech, hreg]
      simp only [runRegions, hstep]
    simp only [reduce_RES, hsp]

/-- Claim C4 (witness): the amended theorem's error case at a concrete
already-reduced list. -/
theorem claim_C4_witness :
    reduce_RES [prodCRI] = .error PyErr.indexError :=
  claim_C4_amended.2 [prodCRI] (by decide) (by decide)

/-! ### Identity equality (claim C3) and the addition guard (claim C10) -/

/-- Claim C3 (counterexample): two Convertion technologies whose
code and region fields are swapped build the same Python set, so
`Technology.__eq__` calls them equal although neither the code nor the
region fields match: the comparison is not exact on every key
field. -/
theorem claim_C3_counterexample :
    techEq swapA swapB = true ∧ ¬ swapA.code = swapB.code ∧
    ¬ swapA.region = swapB.region := by decide

/-- Claim C3 (amended): field-wise equality of (type-class, category,
code, region) is sufficient for `Technology.__eq__` (and of
(tier-class, code, region) for `Fuel.__eq__`), the equality holds
exactly when the unordered key sets coincide, and it is independent of
the fuel lists' contents and of the energy values — but field-wise
equality is not necessary (see the counterexample). -/
theorem claim_C3_amended :
    (∀ a b : Technology, a.ttype = b.ttype → a.category = b.category →
      a.code = b.code → a.region = b.region → techEq a b = true) ∧
    (∀ a b : Technology, techEq a b = true ↔ ∀ k, (k ∈ techKey a ↔ k ∈ techKey b)) ∧
    (∀ (a b : Technology) (ifs ofs ifs2 ofs2 : List Fuel),
      techEq { a with in_fuels := ifs, out_fuels := ofs }
        { b with in_fuels := ifs2, out_fuels := ofs2 } = techEq a b) ∧
    (∀ f g : Fuel, f.ftype = g.ftype → f.code = g.code → f.region = g.region →
      fuelEq f g = true) ∧
    (∀ f g : Fuel, fuelEq f g = true ↔ ∀ k, (k ∈ fuelKey f ↔ k ∈ fuelKey g)) ∧
    (∀ (f g : Fuel) (e1 e2 : Rat),
      fuelEq { f with energy_PJ := e1 } { g with energy_PJ := e2 } = fuelEq f g) := by
  refine ⟨?_, ?_, ?_, ?_, ?_, ?_⟩
  · intro a b h1 h2 h3 h4
    have hk : techKey a = techKey b := by simp [techKey, h1, h2, h3, h4]
    rw [techEq, hk]
    exact keySetEq_iff.2 (fun _ => Iff.rfl)
  · intro a b
    exact keySetEq_iff
  · intro a b ifs ofs ifs2 ofs2
    rfl
  · intro f g h1 h2 h3
    have hk : fuelKey f = fuelKey g := by simp [fuelKey, h1, h2, h3]
    rw [fuelEq, hk]
    exact keySetEq_iff.2 (fun _ => Iff.rfl)
  · intro f g
    exact keySetEq_iff
  · intro f g e1 e2
    rfl

/-- Claim C3 (witness): the sufficiency directions applied at concrete
instances differing only in fuel lists / energies. -/
theorem claim_C3_witness :
    techEq prodCRI { prodCRI with out_fuels := [cruFuel 9] } = true ∧
    fuelEq (cruFuel 1) (cruFuel 4) = true :=
  ⟨claim_C3_amended.1 prodCRI { prodCRI with out_fuels := [cruFuel 9] } rfl rfl rfl rfl,
   claim_C3_amended.2.2.2.1 (cruFuel 1) (cruFuel 4) rfl rfl rfl⟩

theorem memS_iff {s : String} {ys : List String} : memS s ys = true ↔ s ∈ ys := by
  simp only [memS, List.any_eq_true, decide_eq_true_eq]
  constructor
  · rintro ⟨y, hy, rfl⟩; exact hy
  · intro h; exact ⟨s, h, rfl⟩

theorem strSetEq_iff {xs ys : List String} :
    strSetEq xs ys = true ↔ ∀ s, (s ∈ xs ↔ s ∈ ys) := by
  simp only [strSetEq, Bool.and_eq_true, List.all_eq_true, memS_iff]
  constructor
  · rintro ⟨h1, h2⟩ s; exact ⟨fun h => h1 s h, fun h => h2 s h⟩
  · intro h; exact ⟨fun s hs => (h s).1 hs, fun s hs => (h s).2 hs⟩

theorem strSetEq_pair {a b c d : String} :
    strSetEq [a, b] [c, d] = true ↔ ({a, b} : Finset String) = {c, d} := by
  rw [strSetEq_iff, Finset.ext_iff]
  constructor
  · intro h x
    have h2 := h x
    simpa [Finset.mem_insert, Finset.mem_singleton] using h2
  · intro h s
    have h2 := h s
    simpa [Finset.mem_insert, Finset.mem_singleton] using h2

/-- Claim C10: whenever the two technologies' concrete classes differ,
or the pair of their codes is neither the set {"INV", "WAS"} nor the
set {"OWN", "LOS"}, `Technology.__add__` returns `None` without
touching any fuel and without raising: the model reaches the
`.retNone` result, which carries no mutation. -/
theorem claim_C10 (s o : Technology)
    (h : s.ttype ≠ o.ttype ∨
      (({s.code, o.code} : Finset String) ≠ {"INV", "WAS"} ∧
       ({s.code, o.code} : Finset String) ≠ {"OWN", "LOS"})) :
    techAdd s o = .retNone := by
  rcases h with h | ⟨h1, h2⟩
  · rw [techAdd, if_neg h]
  · by_cases hty : s.ttype = o.ttype
    · have e1 : ¬ strSetEq [s.code, o.code] ["INV", "WAS"] = true :=
        fun he => h1 (strSetEq_pair.1 he)
      have e2 : ¬ strSetEq [s.code, o.code] ["OWN", "LOS"] = true :=
        fun he => h2 (strSetEq_pair.1 he)
      rw [techAdd, if_pos hty, if_neg e1, if_neg e2]
    · rw [techAdd, if_neg hty]

/-- Claim C10 (witness): two Supply technologies ("PRO" + "IMP"). -/
theorem claim_C10_witness : techAdd prodCRI impCRI = AddRes.retNone :=
  claim_C10 prodCRI impCRI (Or.inr ⟨by decide, by decide⟩)

/-! ### Merge lookup failures (claim C5) and merge conservation (claim C2) -/

theorem fill_RES_merge_error : ∀ {itechs techs : List Technology} {T : Technology},
    T ∈ itechs → techs.find? (fun t => techEq T t) = none →
    ∃ e, fill_RES_merge itechs techs = .error e := by
  intro itechs
  induction itechs with
  | nil => intro techs T h; simp at h
  | cons T0 Ts ih =>
    intro techs T hT hfind
    rcases List.mem_cons.1 hT with h0 | h0
    · subst h0
      exact ⟨.valueErrorTech T.category T.code T.region, by simp only [fill_RES_merge, hfind]⟩
    · cases h1 : techs.find? (fun t => techEq T0 t) with
      | none =>
        exact ⟨.valueErrorTech T0.category T0.code T0.region,
          by simp only [fill_RES_merge, h1]⟩
      | some t =>
        cases h2 : mergeTech T0 t with
        | error e => exact ⟨e, by simp only [fill_RES_merge, h1, h2]⟩
        | ok T2 =>
          obtain ⟨e, he⟩ := ih h0 hfind
          exact ⟨e, by simp only [fill_RES_merge, h1, h2, he]⟩

theorem copyEnergies_error : ∀ {fs gs : List Fuel} {f : Fuel},
    f ∈ fs → gs.find? (fun g => fuelEq f g) = none →
    ∃ e, copyEnergies fs gs = .error e := by
  intro fs
  induction fs with
  | nil => intro gs f h; simp at h
  | cons f0 fs ih =>
    intro gs f hf hfind
    rcases List.mem_cons.1 hf with h0 | h0
    · subst h0
      exact ⟨.valueErrorFuel f.code f.region, by simp only [copyEnergies, hfind]⟩
    · cases h1 : gs.find? (fun g => fuelEq f0 g) with
      | none => exact ⟨.valueErrorFuel f0.code f0.region, by simp only [copyEnergies, h1]⟩
      | some g =>
        obtain ⟨e, he⟩ := ih h0 hfind
        exact ⟨e, by simp only [copyEnergies, h1, he]⟩

/-- Claim C5: a skeleton technology with no identity counterpart in
the valued list makes the merge abort with an error, and the error of
the failing lookup is the `ValueError` carrying the technology's repr
`(category, code, region)`; likewise a skeleton fuel with no
counterpart aborts the per-technology copy with the `ValueError`
carrying the fuel's repr `(code, region)`. -/
theorem claim_C5 :
    (∀ itechs techs : List Technology, ∀ T ∈ itechs,
      techs.find? (fun t => techEq T t) = none →
      ∃ e, fill_RES_merge itechs techs = .error e) ∧
    (∀ (techs : List Technology) (T : Technology),
      techs.find? (fun t => techEq T t) = none →
      fill_RES_merge [T] techs = .error (.valueErrorTech T.category T.code T.region)) ∧
    (∀ fs gs : List Fuel, ∀ f ∈ fs,
      gs.find? (fun g => fuelEq f g) = none →
      ∃ e, copyEnergies fs gs = .error e) ∧
    (∀ (gs : List Fuel) (f : Fuel),
      gs.find? (fun g => fuelEq f g) = none →
      copyEnergies [f] gs = .error (.valueErrorFuel f.code f.region)) := by
  refine ⟨?_, ?_, ?_, ?_⟩
  · intro itechs techs T hT hfind
    exact fill_RES_merge_error hT hfind
  · intro techs T hfind
    simp only [fill_RES_merge, hfind]
  · intro fs gs f hf hfind
    exact copyEnergies_error hf hfind
  · intro gs f hfind
    simp only [copyEnergies, hfind]

/-- Claim C5 (witness): a skeleton Supply technology and a skeleton
fuel, each with an empty valued list to match against. -/
theorem claim_C5_witness :
    fill_RES_merge [prodCRI] [] = .error (PyErr.valueErrorTech "SUP" "PRO" (RegV.code "CRI")) ∧
    copyEnergies [cruFuel 1] [] = .error (PyErr.valueErrorFuel "CRU" (RegV.code "CRI")) :=
  ⟨claim_C5.2.1 [] prodCRI rfl, claim_C5.2.2.2 [] (cruFuel 1) rfl⟩

/-- Claim C2 (counterexample): a merged skeleton technology whose
valued counterpart carries a non-zero fuel absent from the skeleton's
fuel slots: after the merge the skeleton's output sum is 1 while the
valued sum was 3 — the merge does not conserve the fuel-list sums in
general. -/
theorem claim_C2_counterexample :
    fill_RES_merge [skeletonPRO] [valuedPRO] = .ok [mergedPRO] ∧
    sumE mergedPRO.out_fuels = 1 ∧ sumE valuedPRO.out_fuels = 3 ∧
    ¬ (1 : Rat) = 3 := by
  refine ⟨by decide, ?_, ?_, by norm_num⟩
  · simp [sumE, mergedPRO, cruFuel]
  · norm_num [sumE, valuedPRO, cruFuel]

/-- Claim C2 (amended): for a matched technology whose skeleton and
valued fuel lists correspond one-to-one by fuel identity (position-wise
match, no duplicate identities in the valued list), the merge conserves
the energy sum of every fuel list the category copies — input and
output independently. -/
theorem claim_C2_amended (T t T2 : Technology)
    (hin : corrB T.in_fuels t.in_fuels = true) (hinP : pwNE t.in_fuels = true)
    (hout : corrB T.out_fuels t.out_fuels = true) (houtP : pwNE t.out_fuels = true)
    (hm : mergeTech T t = .ok T2) :
    (copiesIn T.category → sumE T2.in_fuels = sumE t.in_fuels) ∧
    (copiesOut T.category → sumE T2.out_fuels = sumE t.out_fuels) := by
  have hcin := copyEnergies_corr hin hinP
  have hcout := copyEnergies_corr hout houtP
  have hlin := corrB_length hin
  have hlout := corrB_length hout
  by_cases h1 : T.category = "SUP" ∨ T.category = "LOS001"
  · have hok : mergeTech T t = .ok { T with out_fuels := List.zipWith copyFuelEnergy T.out_fuels t.out_fuels } := by
      rw [mergeTech, if_pos h1, hcout]
    rw [hok] at hm
    have hT2 := Except.ok.inj hm
    subst hT2
    constructor
    · intro hc
      exfalso
      rcases h1 with h | h <;> rw [h] at hc <;>
        exact absurd hc (by unfold copiesIn; decide)
    · intro _
      exact sumE_zip_copy hlout
  · by_cases h2 : T.category = "UPS001" ∨ T.category = "UPS002" ∨ T.category = "UPS003"
    · have hok : mergeTech T t = .ok { T with in_fuels := List.zipWith copyFuelEnergy T.in_fuels t.in_fuels, out_fuels := List.zipWith copyFuelEnergy T.out_fuels t.out_fuels } := by
        rw [mergeTech, if_neg h1, if_pos h2, hcin, hcout]
      rw [hok] at hm
      have hT2 := Except.ok.inj hm
      subst hT2
      constructor
      · intro _
        exact sumE_zip_copy hlin
      · intro _
        exact sumE_zip_copy hlout
    · by_cases h3 : T.category = "DEM" ∨ T.category = "LOS002"
      · have hok : mergeTech T t = .ok { T with in_fuels := List.zipWith copyFuelEnergy T.in_fuels t.in_fuels } := by
          rw [mergeTech, if_neg h1, if_neg h2, if_pos h3, hcin]
        rw [hok] at hm
        have hT2 := Except.ok.inj hm
        subst hT2
        constructor
        · intro _
          exact sumE_zip_copy hlin
        · intro hc
          exfalso
          rcases h3 with h | h <;> rw [h] at hc <;>
            exact absurd hc (by unfold copiesOut; decide)
      · have hok : mergeTech T t = .ok T := by
          rw [mergeTech, if_neg h1, if_neg h2, if_neg h3]
        rw [hok] at hm
        have hT2 := Except.ok.inj hm
        subst hT2
        constructor
        · intro hc
          exfalso
          rcases hc with h | h | h | h | h
          · exact h2 (Or.inl h)
          · exact h2 (Or.inr (Or.inl h))
          · exact h2 (Or.inr (Or.inr h))
          · exact h3 (Or.inl h)
          · exact h3 (Or.inr h)
        · intro hc
          exfalso
          rcases hc with h | h | h | h | h
          · exact h1 (Or.inl h)
          · exact h1 (Or.inr h)
          · exact h2 (Or.inl h)
          · exact h2 (Or.inr (Or.inl h))
          · exact h2 (Or.inr (Or.inr h))

/-- Claim C2 (witness): the amended conservation at a concrete matched
pair with corresponding fuel lists. -/
theorem claim_C2_witness :
    (copiesIn skeletonPRO.category → sumE mergedPRO7.in_fuels = sumE valuedPRO7.in_fuels) ∧
    (copiesOut skeletonPRO.category → sumE mergedPRO7.out_fuels = sumE valuedPRO7.out_fuels) :=
  claim_C2_amended skeletonPRO valuedPRO7 mergedPRO7 (by decide) (by decide) (by decide)
    (by decide) (by decide)

/-! ### The split-flow sign invariant (claim C6) -/

theorem split_flow_mem {l : List Technology} {T : Technology}
    (hT : T ∈ split_flow l) (hc : T.category = "UPS002") :
    (∀ f ∈ T.in_fuels, f.energy_PJ ≤ 0) ∧ (∀ f ∈ T.out_fuels, 0 ≤ f.energy_PJ) := by
  obtain ⟨S, hS, hmap⟩ := List.mem_map.1 hT
  by_cases h : S.category = "UPS002"
  · rw [if_pos h] at hmap
    subst hmap
    constructor
    · intro f hf
      obtain ⟨g, hg, hgmap⟩ := List.mem_map.1 hf
      subst hgmap
      by_cases hgp : g.energy_PJ > 0
      · rw [if_pos hgp]
      · rw [if_neg hgp]
        exact le_of_not_lt hgp
    · intro f hf
      obtain ⟨g, hg, hgmap⟩ := List.mem_map.1 hf
      subst hgmap
      by_cases hgp : g.energy_PJ < 0
      · rw [if_pos hgp]
      · rw [if_neg hgp]
        exact le_of_not_lt hgp
  · rw [if_neg h] at hmap
    subst hmap
    exact absurd hc h

/-- Claim C6: after the Value Builder completes (`data_RES`, whose
last step is `split_flow`), every technology of category `UPS002` has
every input fuel energy at most `0` and every output fuel energy at
least `0`. -/
theorem claim_C6 (sheets : List Sheet) (ts : List Technology)
    (h : data_RES sheets = .ok ts) :
    ∀ T ∈ ts, T.category = "UPS002" →
      (∀ f ∈ T.in_fuels, f.energy_PJ ≤ 0) ∧ (∀ f ∈ T.out_fuels, 0 ≤ f.energy_PJ) := by
  intro T hT hc
  cases hd : dataTechs sheets with
  | error e =>
    rw [data_RES, hd] at h
    simp at h
  | ok l =>
    rw [data_RES, hd] at h
    have h2 : split_flow l = ts := Except.ok.inj h
    subst h2
    exact split_flow_mem hT hc

/-- Claim C6 (witness): one sheet with a coking (`UPS002`) row holding
a positive primary input (zeroed on the input side) and a negative
secondary value (kept on the input side, zeroed on the output copy). -/
theorem claim_C6_witness :
    (∀ f ∈ boiTech.in_fuels, f.energy_PJ ≤ 0) ∧
    (∀ f ∈ boiTech.out_fuels, 0 ≤ f.energy_PJ) :=
  claim_C6 [sheetBoi] [boiTech] (by decide) boiTech (by decide) (by decide)

/-! ### The Structure Builder (claims C8, C9) -/

theorem lookupCat_fst : ∀ {ts : List (String × List (String × String))}
    {name : String} {p : String × String},
    lookupCat ts name = some p → p.1 ∈ ts.map Prod.fst := by
  intro ts
  induction ts with
  | nil => intro name p h; simp [lookupCat] at h
  | cons t ts ih =>
    intro name p h
    obtain ⟨cat, tbl⟩ := t
    rw [lookupCat] at h
    cases h0 : lookupTable tbl name with
    | some v =>
      rw [h0] at h
      have h1 : p = (cat, v) := (Option.some.inj h).symm
      subst h1
      simp
    | none =>
      rw [h0] at h
      simpa using Or.inr (ih h)

theorem sheetBody_spec {r : RegV} {sh : Sheet} :
    ∀ l ∈ sheetBody r sh, l.region = r ∧
      l.cat ∈ ["SUP", "UPS001", "UPS002", "UPS003", "DEM", "LOS001", "LOS002"] ∧
      l.sector ∈ ["FUE001", "FUE002", "FUE003"] := by
  intro l hl
  obtain ⟨p, hp, hl2⟩ := List.mem_flatMap.1 hl
  cases h1 : set_technology_labels p.2 with
  | none =>
    rw [h1] at hl2
    simp at hl2
  | some ct =>
    obtain ⟨cat, tcode⟩ := ct
    rw [h1] at hl2
    obtain ⟨fv, hfv, h2⟩ := List.mem_filterMap.1 hl2
    cases h3 : set_fuel_labels fv.1 with
    | none =>
      simp only [h3] at h2
      exact Option.noConfusion h2
    | some sf =>
      obtain ⟨sector, fcode⟩ := sf
      simp only [h3] at h2
      by_cases h4 : (fv.2.getD p.1 0 : Rat) ≠ 0
      · rw [if_pos h4] at h2
        have h5 : l = ⟨cat, tcode, sector, fcode, r⟩ := (Option.some.inj h2).symm
        subst h5
        refine ⟨rfl, ?_, ?_⟩
        · have h6 : cat ∈ techTables.map Prod.fst := lookupCat_fst h1
          have e : techTables.map Prod.fst =
              ["SUP", "UPS001", "UPS002", "UPS003", "DEM", "LOS001", "LOS002"] := rfl
          rw [e] at h6
          exact h6
        · have h6 : sector ∈ fuelTables.map Prod.fst := lookupCat_fst h3
          have e : fuelTables.map Prod.fst = ["FUE001", "FUE002", "FUE003"] := rfl
          rw [e] at h6
          exact h6
      · rw [if_neg h4] at h2
        cases h2

theorem obj_labels_ok : ∀ {sheets : List Sheet},
    (∀ sh ∈ sheets, ((splitDash sh.key.toList)[1]?).isSome) →
    ∃ labels, obj_labels sheets = .ok labels ∧
      ∀ l ∈ labels,
        l.cat ∈ ["SUP", "UPS001", "UPS002", "UPS003", "DEM", "LOS001", "LOS002"] ∧
        l.sector ∈ ["FUE001", "FUE002", "FUE003"] := by
  intro sheets
  induction sheets with
  | nil => intro _; exact ⟨[], rfl, by simp⟩
  | cons sh rest ih =>
    intro hk
    have h1 : ((splitDash sh.key.toList)[1]?).isSome = true := hk sh (by simp)
    obtain ⟨cs, hcs⟩ := Option.isSome_iff_exists.1 h1
    have hr : sheetRegion sh = .ok (set_region (String.mk cs)) := by
      rw [sheetRegion, hcs]
    obtain ⟨labels, h2, h3⟩ := ih (fun s hs => hk s (by simp [hs]))
    refine ⟨sheetBody (set_region (String.mk cs)) sh ++ labels, ?_, ?_⟩
    · simp only [obj_labels, hr, h2]
    · intro l hl
      rcases List.mem_append.1 hl with h4 | h4
      · exact (sheetBody_spec l h4).2
      · exact h3 l h4

theorem add_ifuel_zero (sector fcode : String) (r : RegV)
    (h : sector ∈ ["FUE001", "FUE002", "FUE003"]) :
    ∃ f, add_ifuel sector fcode r = .ok f ∧ f.energy_PJ = 0 := by
  rcases (show sector = "FUE001" ∨ sector = "FUE002" ∨ sector = "FUE003" by
    simpa using h) with h1 | h1 | h1
  · exact ⟨⟨.primFuel, fcode, r, 0⟩, by rw [add_ifuel, if_pos h1], rfl⟩
  · refine ⟨⟨.secFuel, fcode, r, 0⟩, ?_, rfl⟩
    rw [add_ifuel, if_neg (by rw [h1]; decide), if_pos h1]
  · refine ⟨⟨.thirdFuel, fcode, r, 0⟩, ?_, rfl⟩
    rw [add_ifuel, if_neg (by rw [h1]; decide), if_neg (by rw [h1]; decide), if_pos h1]

theorem addIFuels_ok : ∀ {ls : List Label},
    (∀ l ∈ ls, l.sector ∈ ["FUE001", "FUE002", "FUE003"]) →
    ∃ fs, addIFuels ls = .ok fs ∧ ∀ f ∈ fs, f.energy_PJ = 0 := by
  intro ls
  induction ls with
  | nil => intro _; exact ⟨[], rfl, by simp⟩
  | cons l ls ih =>
    intro h
    obtain ⟨f, h1, h2⟩ := add_ifuel_zero l.sector l.fcode l.region (h l (by simp))
    obtain ⟨fs, h3, h4⟩ := ih (fun x hx => h x (by simp [hx]))
    refine ⟨f :: fs, ?_, ?_⟩
    · simp only [addIFuels, h1, h3]
    · intro g hg
      rcases List.mem_cons.1 hg with h5 | h5
      · subst h5; exact h2
      · exact h4 g h5

theorem fuelsFor_ok (flt : List Key) {labels : List Label}
    (hwf : ∀ l ∈ labels, l.sector ∈ ["FUE001", "FUE002", "FUE003"]) :
    ∃ fs, fuelsFor flt labels = .ok fs ∧ ∀ f ∈ fs, f.energy_PJ = 0 := by
  apply addIFuels_ok
  intro l hl
  exact hwf l (List.mem_filter.1 (List.mem_dedup.1 hl)).1

theorem techFlow_ok {T : Technology} {labels : List Label}
    (hwf : ∀ l ∈ labels, l.sector ∈ ["FUE001", "FUE002", "FUE003"])
    (hin : T.in_fuels = []) (hout : T.out_fuels = []) :
    ∃ T2, techFlow T labels = .ok T2 ∧ T2.category = T.category ∧ T2.code = T.code ∧
      T2.region = T.region ∧ (∀ f ∈ T2.in_fuels, f.energy_PJ = 0) ∧
      (∀ f ∈ T2.out_fuels, f.energy_PJ = 0) := by
  by_cases h1 : T.category = "SUP" ∨ T.category = "LOS001"
  · obtain ⟨fs, h2, h3⟩ := fuelsFor_ok [.str T.code, T.region.key, .str "FUE001",
      .str "FUE002", .str "FUE003"] hwf
    refine ⟨{ T with out_fuels := fs }, ?_, rfl, rfl, rfl, ?_, h3⟩
    · rw [techFlow, if_pos h1, h2]
    · intro f hf
      simp [hin] at hf
  · by_cases h2 : T.category = "UPS001"
    · obtain ⟨ifs, hi2, hi3⟩ := fuelsFor_ok [.str T.code, .str "FUE001",
        T.region.key] hwf
      obtain ⟨ofs, ho2, ho3⟩ := fuelsFor_ok [.str T.code, .str "FUE002",
        T.region.key] hwf
      refine ⟨{ T with in_fuels := ifs, out_fuels := ofs }, ?_, rfl, rfl, rfl, hi3, ho3⟩
      rw [techFlow, if_neg h1, if_pos h2, hi2, ho2]
    · by_cases h3 : T.category = "UPS002"
      · obtain ⟨ifs, hi2, hi3⟩ := fuelsFor_ok [.str T.code, .str "FUE001",
          .str "FUE002", T.region.key] hwf
        obtain ⟨ofs, ho2, ho3⟩ := fuelsFor_ok [.str T.code, .str "FUE002",
          T.region.key] hwf
        refine ⟨{ T with in_fuels := ifs, out_fuels := ofs }, ?_, rfl, rfl, rfl, hi3, ho3⟩
        rw [techFlow, if_neg h1, if_neg h2, if_pos h3, hi2, ho2]
      · by_cases h4 : T.category = "UPS003"
        · obtain ⟨ifs, hi2, hi3⟩ := fuelsFor_ok [.str T.code, .str "FUE001",
            .str "FUE002", T.region.key] hwf
          obtain ⟨ofs, ho2, ho3⟩ := fuelsFor_ok [.str T.code, .str "FUE003",
            T.region.key] hwf
          refine ⟨{ T with in_fuels := ifs, out_fuels := ofs }, ?_, rfl, rfl, rfl, hi3, ho3⟩
          rw [techFlow, if_neg h1, if_neg h2, if_neg h3, if_pos h4, hi2, ho2]
        · by_cases h5 : T.category = "DEM" ∨ T.category = "LOS002"
          · obtain ⟨ifs, hi2, hi3⟩ := fuelsFor_ok [.str T.code, .str "FUE001",
              .str "FUE002", .str "FUE003", T.region.key] hwf
            refine ⟨{ T with in_fuels := ifs }, ?_, rfl, rfl, rfl, hi3, ?_⟩
            · rw [techFlow, if_neg h1, if_neg h2, if_neg h3, if_neg h4, if_pos h5, hi2]
            · intro f hf
              simp [hout] at hf
          · refine ⟨T, ?_, rfl, rfl, rfl, ?_, ?_⟩
            · rw [techFlow, if_neg h1, if_neg h2, if_neg h3, if_neg h4, if_neg h5]
            · intro f hf
              rw [hin] at hf
              simp at hf
            · intro f hf
              rw [hout] at hf
              simp at hf

theorem add_itech_ok (cat tcode : String) (r : RegV)
    (h : cat ∈ ["SUP", "UPS001", "UPS002", "UPS003", "DEM", "LOS001", "LOS002"]) :
    ∃ T, add_itech cat tcode r = .ok T ∧ T.category = cat ∧ T.code = tcode ∧
      T.region = r ∧ T.in_fuels = [] ∧ T.out_fuels = [] := by
  rcases (show cat = "SUP" ∨ cat = "UPS001" ∨ cat = "UPS002" ∨ cat = "UPS003" ∨
      cat = "DEM" ∨ cat = "LOS001" ∨ cat = "LOS002" by simpa using h) with
    rfl | rfl | rfl | rfl | rfl | rfl | rfl
  · exact ⟨_, by rw [add_itech, if_pos (Or.inl rfl)], rfl, rfl, rfl, rfl, rfl⟩
  · exact ⟨_, by rw [add_itech, if_neg (by decide), if_pos (Or.inl rfl)],
      rfl, rfl, rfl, rfl, rfl⟩
  · exact ⟨_, by rw [add_itech, if_neg (by decide), if_pos (Or.inr (Or.inl rfl))],
      rfl, rfl, rfl, rfl, rfl⟩
  · exact ⟨_, by rw [add_itech, if_neg (by decide), if_pos (Or.inr (Or.inr rfl))],
      rfl, rfl, rfl, rfl, rfl⟩
  · exact ⟨_, by rw [add_itech, if_neg (by decide), if_neg (by decide),
      if_pos (Or.inl rfl)], rfl, rfl, rfl, rfl, rfl⟩
  · exact ⟨_, by rw [add_itech, if_pos (Or.inr rfl)], rfl, rfl, rfl, rfl, rfl⟩
  · exact ⟨_, by rw [add_itech, if_neg (by decide), if_neg (by decide),
      if_pos (Or.inr rfl)], rfl, rfl, rfl, rfl, rfl⟩

theorem initTechs_ok : ∀ {triples : List (String × String × RegV)} {labels : List Label},
    (∀ tr ∈ triples,
      tr.1 ∈ ["SUP", "UPS001", "UPS002", "UPS003", "DEM", "LOS001", "LOS002"]) →
    (∀ l ∈ labels, l.sector ∈ ["FUE001", "FUE002", "FUE003"]) →
    ∃ ts, initTechs triples labels = .ok ts ∧
      ts.map (fun T => (T.category, T.code, T.region)) = triples ∧
      ∀ T ∈ ts, (∀ f ∈ T.in_fuels, f.energy_PJ = 0) ∧
        (∀ f ∈ T.out_fuels, f.energy_PJ = 0) := by
  intro triples
  induction triples with
  | nil => intro labels _ _; exact ⟨[], rfl, rfl, by simp⟩
  | cons tr rest ih =>
    intro labels hc hwf
    obtain ⟨c, tc, r⟩ := tr
    obtain ⟨T, h1, h2, h3, h4, h5, h6⟩ := add_itech_ok c tc r (hc (c, tc, r) (by simp))
    obtain ⟨T2, h7, h8, h9, h10, h11, h12⟩ := techFlow_ok hwf h5 h6
    obtain ⟨ts, h13, h14, h15⟩ := ih (fun tr2 htr2 => hc tr2 (by simp [htr2])) hwf
    refine ⟨T2 :: ts, ?_, ?_, ?_⟩
    · simp only [initTechs, h1, h7, h13]
    · simp only [List.map_cons, h14, h8, h9, h10, h2, h3, h4]
    · intro T3 hT3
      rcases List.mem_cons.1 hT3 with h16 | h16
      · subst h16
        exact ⟨h11, h12⟩
      · exact h15 T3 h16

/-- Claim C8: from any capacity workbook whose sheet keys parse, the
Structure Builder produces exactly one technology per distinct
`(category, tech-code, region)` triple occurring among the recognized
non-zero indicator cells (the collected labels) — the produced identity
triples are exactly the deduplicated label triples and contain no
duplicates — and every fuel attached to a skeleton technology has
energy `0`. -/
theorem claim_C8 (sheets : List Sheet)
    (hk : ∀ sh ∈ sheets, ((splitDash sh.key.toList)[1]?).isSome) :
    ∃ labels ts, obj_labels sheets = .ok labels ∧ initital_RES labels = .ok ts ∧
      ts.map (fun T => (T.category, T.code, T.region)) =
        (labels.map (fun l => (l.cat, l.tcode, l.region))).dedup ∧
      (ts.map (fun T => (T.category, T.code, T.region))).Nodup ∧
      ∀ T ∈ ts, (∀ f ∈ T.in_fuels, f.energy_PJ = 0) ∧
        (∀ f ∈ T.out_fuels, f.energy_PJ = 0) := by
  obtain ⟨labels, h1, h2⟩ := obj_labels_ok hk
  have hc : ∀ tr ∈ (labels.map (fun l => (l.cat, l.tcode, l.region))).dedup,
      tr.1 ∈ ["SUP", "UPS001", "UPS002", "UPS003", "DEM", "LOS001", "LOS002"] := by
    intro tr htr
    obtain ⟨l, hl, h4⟩ := List.mem_map.1 (List.mem_dedup.1 htr)
    rw [← h4]
    exact (h2 l hl).1
  have hwf : ∀ l ∈ labels, l.sector ∈ ["FUE001", "FUE002", "FUE003"] :=
    fun l hl => (h2 l hl).2
  obtain ⟨ts, h5, h6, h7⟩ := initTechs_ok hc hwf
  refine ⟨labels, ts, h1, h5, h6, ?_, h7⟩
  rw [h6]
  exact List.nodup_dedup _

/-- Claim C8 (witness): one sheet, one recognized non-zero cell. -/
theorem claim_C8_witness :
    ∃ labels ts, obj_labels [sheetCRI] = .ok labels ∧ initital_RES labels = .ok ts ∧
      ts.map (fun T => (T.category, T.code, T.region)) =
        (labels.map (fun l => (l.cat, l.tcode, l.region))).dedup ∧
      (ts.map (fun T => (T.category, T.code, T.region))).Nodup ∧
      ∀ T ∈ ts, (∀ f ∈ T.in_fuels, f.energy_PJ = 0) ∧
        (∀ f ∈ T.out_fuels, f.energy_PJ = 0) :=
  claim_C8 [sheetCRI] (by decide)

/-- Claim C9 (counterexample): a sheet whose country name "Atlantis"
does not resolve still contributes a label and a skeleton technology;
both carry the `False` sentinel as region, but the sheet is not
skipped as the claim states. -/
theorem claim_C9_counterexample :
    obj_labels [sheetAtl] = .ok [atlLabel] ∧ skeleton_RES [sheetAtl] = .ok [atlTech] ∧
    atlLabel.region = RegV.unre ∧ atlTech.region = RegV.unre := by decide

/-- Claim C9 (amended): a sheet whose country name does not resolve is
not skipped; every label it contributes carries the sheet's resolved
region value — the `False` sentinel when the country is unrecognized —
so the skeleton receives its entries with that sentinel as region. -/
theorem claim_C9_amended (sh : Sheet) (r : RegV) (hr : sheetRegion sh = .ok r) :
    ∀ labels, obj_labels [sh] = .ok labels → ∀ l ∈ labels, l.region = r := by
  intro labels h l hl
  have h2 : obj_labels [sh] = .ok (sheetBody r sh ++ []) := by
    simp only [obj_labels, hr]
  rw [h2] at h
  have h3 : labels = sheetBody r sh ++ [] := (Except.ok.inj h).symm
  subst h3
  have h4 : l ∈ sheetBody r sh := by simpa using hl
  exact (sheetBody_spec l h4).1

/-- Claim C9 (witness): the amended theorem at the unrecognized
"Atlantis" sheet. -/
theorem claim_C9_witness : atlLabel.region = RegV.unre :=
  claim_C9_amended sheetAtl RegV.unre (by decide) [atlLabel] (by decide) atlLabel
    (by decide)
